import Mathlib

/-!
# A replicated key/value router over single-node stores (`src/main.cpp`)

The development embeds class `Control` of `src/main.cpp` together with the two
file-scope maps it works on, and proves properties of `bringUP`, `getNodeIndex`,
`put`, `get` and `failNode`.

Conventions of the embedding.

* `int` values are integers (`Int`).  The decrement of a capacity, which
  leaves the range of `int` at `INT_MIN`, is written with an explicit wrap
  modulo `2^32` (`wrapInt`), and `hash<int>()(key) % NUM_OF_SERVERS`, a
  `size_t` computation, with an explicit `% 2^64`.  The sums `node_port + r`
  and `BASE_PORT + index` of the source are exact in `int` for every node count
  up to `2^30`, far beyond the ports a cluster can use.
* `server_status` is an `unordered_map<int, pair<bool,int>>` that is only ever
  accessed with `operator[]`, which value-initialises a missing entry to
  `{false, 0}`.  It is a total function `Int → Bool × Int` whose value at a
  port never written is `(false, 0)`.
* The store processes and the `cpp_redis` client are external.  What a client
  call does is an explicit argument of the operation that makes the call:
  `net` for the `connect/set/sync_commit` sequence of `p_put`, `ask` for what
  `p_get` yields.  The data held by the store process at each port is the
  field `node` of the state.
* `put` starts one asynchronous task per eligible candidate and joins them.
  Each task touches only the entry of its own port (under the mutex of that port),
  so the tasks are run here in scan order; whenever the candidate ports are
  pairwise distinct the result does not depend on that order.
* `exit(...)` ends the process: operations that may reach it return in
  `Except Abort`.  An exception leaving `get` is an ordinary outcome of the
  call (`GetOutcome.threw`), since a caller may catch it.
-/

namespace Redis

/-- The constant `BASE_PORT` of the source. -/
def BASE_PORT : Int := 9000

/-- The sentinel `INT_MIN` returned by `get` when no value was found. -/
def INT_MIN : Int := -2147483648

/-- The largest `int`. -/
def INT_MAX : Int := 2147483647

/-- The `int` that a computation with exact result `x` yields: `x` itself when
`INT_MIN ≤ x ≤ INT_MAX`, and its wrap modulo `2^32` otherwise. -/
def wrapInt (x : Int) : Int := (x + 2147483648) % 4294967296 - 2147483648

/-- What the `try` block of `p_put` (connect, set, sync_commit) does on one
port: it runs to the end, or one of the client calls throws. -/
inductive SetOutcome
  | ack
  | threw
  deriving DecidableEq

/-- A reply of the store to `GET`.  `str t` is a string reply (for which
`ok() && is_string()` holds); the only thing `get` does with its text is to
apply `stoi`, and `t` is what `stoi` makes of it: `some v` when the text reads
as the `int` `v`, `none` when `stoi` throws (the text is no number, or a number
that is no `int`).  `nil` is the reply for an absent key, `error` an error
reply, `other` a reply of any other type. -/
inductive Reply
  | str (t : Option Int)
  | nil
  | error
  | other
  deriving DecidableEq

/-- What `p_get` does on one port: it returns a reply, or one of the client
calls throws. -/
inductive Fetched
  | reply (r : Reply)
  | threw
  deriving DecidableEq

/-- How the process can end inside an operation: `exit(-1)` in `bringUP`,
`exit(-2)` in `getNodeIndex`, or the remainder by zero that `getNodeIndex`
takes when `NUM_OF_SERVERS` is `0`. -/
inductive Abort
  | exitBringUP
  | exitUninitialised
  | zeroModulus
  deriving DecidableEq

/-- The members `NUM_OF_SERVERS` and `RL` of `Control`, the global map
`server_status`, and the data held by the store process of each port
(`node port key`). -/
structure World where
  NUM_OF_SERVERS : Int
  RL : Int
  server_status : Int → Bool × Int
  node : Int → Int → Option Int

/-- The default constructor `Control()`: `NUM_OF_SERVERS(-1), RL(1)`, with the
global map empty and no store holding any data.  (`main` builds its object with
the two-argument constructor, which gives neither member an initial value; the
runs below start from the values of the default constructor.) -/
def Control : World :=
  { NUM_OF_SERVERS := -1
    RL := 1
    server_status := fun _ => (false, 0)
    node := fun _ _ => none }

/-- Assignment `server_status[port] = st`. -/
def setStatus (m : Int → Bool × Int) (port : Int) (st : Bool × Int) : Int → Bool × Int :=
  fun q => if q = port then st else m q

/-- The method `Control::bringUP`.  Starting the store processes is a side
effect outside the state: the data of the stores is what `node` says already
(nothing, when the call is made on `Control()`). -/
def bringUP (w : World) (N capacity reliabilityLevel : Int) : Except Abort World :=
  if N < reliabilityLevel then
    .error .exitBringUP
  else if w.NUM_OF_SERVERS ≠ -1 then
    .ok w
  else
    .ok { w with
      NUM_OF_SERVERS := N
      RL := reliabilityLevel
      server_status :=
        (List.range N.toNat).foldl
          (fun m (i : Nat) => setStatus m (BASE_PORT + (i : Int)) (true, capacity)) w.server_status }

/-- Modelled from the spec: `hash<int>` belongs to the standard library, not to
`src/`, and the spec only names it `hash(key)`.  It is taken as libstdc++
defines it, the key converted to the 64-bit `size_t`; the comments of `main`
on its own calls agree with this choice.  No statement below that ranges over
all keys depends on which function it is. -/
def hash_int (key : Int) : Nat := (key % 18446744073709551616).toNat

/-- The method `Control::getNodeIndex`. -/
def getNodeIndex (w : World) (key : Int) : Except Abort Int :=
  if w.NUM_OF_SERVERS < 0 then
    .error .exitUninitialised
  else if w.NUM_OF_SERVERS = 0 then
    .error .zeroModulus
  else
    .ok ((hash_int key % w.NUM_OF_SERVERS.toNat : Nat) : Int)

/-- The per-node result of one step of the write scan. -/
inductive Outcome
  | success
  | skippedOffline
  | skippedFull
  | failedTransport
  deriving DecidableEq

/-- Modelled from the spec: the store process is not part of `src/`; it is a
key-value map, and an acknowledged `SET key value` on the store at `port`
makes that store hold `value` for `key` and changes nothing else. -/
def storeSet (node : Int → Int → Option Int) (port key value : Int) :
    Int → Int → Option Int :=
  fun q k => if q = port ∧ k = key then some value else node q k

/-- The method `Control::p_put`: when the client calls run to the end the store
at `port` has taken the `SET` and the capacity of `port`, an `int`, is
decremented; when one of them throws, the exception is caught and nothing
changes. -/
def p_put (w : World) (net : Int → SetOutcome) (key value port : Int) : World × Outcome :=
  match net port with
  | .ack =>
    ({ w with
        node := storeSet w.node port key value
        server_status :=
          setStatus w.server_status port
            ((w.server_status port).1, wrapInt ((w.server_status port).2 - 1)) },
     .success)
  | .threw => (w, .failedTransport)

/-- The local state of the loop of `put`: the world, the counter `no_success`
and, in scan order, what was done with each candidate port. -/
structure PutAcc where
  world : World
  no_success : Int
  log : List (Int × Outcome)

/-- The body of the loop of `put` for one value of `r`. -/
def putBody (net : Int → SetOutcome) (key value node_port : Int) (acc : PutAcc) (r : Nat) :
    PutAcc :=
  let np := BASE_PORT + Int.tmod (node_port + (r : Int)) acc.world.NUM_OF_SERVERS
  let status := acc.world.server_status np
  if status.1 = false then
    { acc with no_success := acc.no_success + 1, log := acc.log ++ [(np, .skippedOffline)] }
  else if status.2 = 0 then
    { acc with no_success := acc.no_success + 1, log := acc.log ++ [(np, .skippedFull)] }
  else
    let res := p_put acc.world net key value np
    { acc with world := res.1, log := acc.log ++ [(np, res.2)] }

/-- What a call of `put` leaves behind: the world, the per-candidate log, and
whether the branch `RL == no_success` (could not put anywhere) was taken. -/
structure PutResult where
  world : World
  log : List (Int × Outcome)
  noEligible : Bool

/-- The method `Control::put`. -/
def put (w : World) (net : Int → SetOutcome) (key value : Int) : Except Abort PutResult :=
  match getNodeIndex w key with
  | .error e => .error e
  | .ok node_port =>
    let acc := (List.range w.RL.toNat).foldl (putBody net key value node_port) ⟨w, 0, []⟩
    .ok { world := acc.world, log := acc.log, noEligible := decide (w.RL = acc.no_success) }

/-- How a call of `get` ends: a value was retrieved, the scan ran out of
candidates, or an exception left `get`, thrown by `p_get` or by `stoi`. -/
inductive GetOutcome
  | retrieved (v : Int)
  | notFound
  | threw
  deriving DecidableEq

/-- The method `Control::p_get`. -/
def p_get (ask : Int → Fetched) (_key port : Int) : Fetched := ask port

/-- The loop of `get` over the values of `r` still to come; the second
component lists the ports on which `p_get` was called. -/
def getLoop (w : World) (ask : Int → Fetched) (key node_port : Int) :
    List Nat → GetOutcome × List Int
  | [] => (.notFound, [])
  | r :: rs =>
    let np := BASE_PORT + Int.tmod (node_port + (r : Int)) w.NUM_OF_SERVERS
    let status := w.server_status np
    if status.1 = false then
      getLoop w ask key node_port rs
    else
      match p_get ask key np with
      | .threw => (.threw, [np])
      | .reply (.str (some v)) => (.retrieved v, [np])
      | .reply (.str none) => (.threw, [np])
      | .reply _ =>
        let rest := getLoop w ask key node_port rs
        (rest.1, np :: rest.2)

/-- The method `Control::get`. -/
def get (w : World) (ask : Int → Fetched) (key : Int) : Except Abort (GetOutcome × List Int) :=
  match getNodeIndex w key with
  | .error e => .error e
  | .ok node_port => .ok (getLoop w ask key node_port (List.range w.RL.toNat))

/-- The `int` that `get` hands back when no exception leaves it. -/
def GetOutcome.ret : GetOutcome → Option Int
  | .retrieved v => some v
  | .notFound => some INT_MIN
  | .threw => none

/-- The method `Control::failNode`.  Killing the store process is a side effect
outside the state; the flag it clears is what the scans of `put` and `get`
consult. -/
def failNode (w : World) (port : Int) : World :=
  { w with
    server_status := setStatus w.server_status port (false, (w.server_status port).2) }

/-- Modelled from the spec: the store process is not part of `src/`; a store
that is reached answers `GET key` with the nil reply when it holds no value for
`key`, and otherwise with a string reply carrying the text `to_string(v)` that
`p_put` sent it, which `stoi` reads back as `v`. -/
def served (w : World) (key : Int) : Int → Fetched :=
  fun port =>
    match w.node port key with
    | some v => .reply (.str (some v))
    | none => .reply .nil

/-- A network on which every `SET` attempt is acknowledged. -/
def ackAll : Int → SetOutcome := fun _ => .ack

/-- One call of the public interface, with what the network does during it. -/
inductive Call
  | bringUP (N capacity reliabilityLevel : Int)
  | put (key value : Int) (net : Int → SetOutcome)
  | get (key : Int) (ask : Int → Fetched)
  | failNode (port : Int)

/-- A client call reaching a store: a `SET` attempt or a `GET` on a port. -/
inductive Event
  | write (port : Int)
  | read (port : Int)
  deriving DecidableEq

/-- The ports on which `p_put` was started, in scan order. -/
def attempted (log : List (Int × Outcome)) : List Int :=
  (log.filter (fun e => decide (e.2 = .success ∨ e.2 = .failedTransport))).map (fun e => e.1)

/-- One call run on a world: the world it leaves and the client calls made. -/
def step (w : World) : Call → Except Abort (World × List Event)
  | .bringUP N capacity reliabilityLevel =>
    match bringUP w N capacity reliabilityLevel with
    | .error e => .error e
    | .ok w1 => .ok (w1, [])
  | .put key value net =>
    match put w net key value with
    | .error e => .error e
    | .ok res => .ok (res.world, (attempted res.log).map Event.write)
  | .get key ask =>
    match get w ask key with
    | .error e => .error e
    | .ok res => .ok (w, res.2.map Event.read)
  | .failNode port => .ok (failNode w port, [])

/-- A sequence of calls run one after the other. -/
def run (w : World) : List Call → Except Abort (World × List Event)
  | [] => .ok (w, [])
  | c :: cs =>
    match step w c with
    | .error e => .error e
    | .ok r1 =>
      match run r1.1 cs with
      | .error e => .error e
      | .ok r2 => .ok (r2.1, r1.2 ++ r2.2)

/-- The node indices of the replica set of a key as the specification words
it: the cyclic sequence `base, base+1, …, base+RL-1` modulo `N` with
`base = hash(key) mod N`. -/
def replicaSet (key RL N : Int) : List Int :=
  (List.range RL.toNat).map (fun (r : Nat) => ((hash_int key : Int) % N + (r : Int)) % N)

/-- The candidate ports of a key: `BASE_PORT` plus each index of its replica set. -/
def candidates (w : World) (key : Int) : List Int :=
  (replicaSet key w.RL w.NUM_OF_SERVERS).map (fun i => BASE_PORT + i)

/-- A configuration as the specification describes it: `1 ≤ RL ≤ N`. -/
def Configured (w : World) : Prop := 1 ≤ w.RL ∧ w.RL ≤ w.NUM_OF_SERVERS

/-- The online flag of a port. -/
def online (w : World) (port : Int) : Bool := (w.server_status port).1

/-- The remaining capacity of a port. -/
def capacity (w : World) (port : Int) : Int := (w.server_status port).2

/-- What the write scan does with a port, read off the status of the port and
the network. -/
def outcomeOf (w : World) (net : Int → SetOutcome) (port : Int) : Outcome :=
  if (w.server_status port).1 = false then .skippedOffline
  else if (w.server_status port).2 = 0 then .skippedFull
  else
    match net port with
    | .ack => .success
    | .threw => .failedTransport

/-- The body of the loop of `put` once the port `np` has been computed. -/
def visit (net : Int → SetOutcome) (key value : Int) (acc : PutAcc) (np : Int) : PutAcc :=
  let status := acc.world.server_status np
  if status.1 = false then
    { acc with no_success := acc.no_success + 1, log := acc.log ++ [(np, .skippedOffline)] }
  else if status.2 = 0 then
    { acc with no_success := acc.no_success + 1, log := acc.log ++ [(np, .skippedFull)] }
  else
    let res := p_put acc.world net key value np
    { acc with world := res.1, log := acc.log ++ [(np, res.2)] }

/-- The loop of `get` over the ports still to come. -/
def getPorts (w : World) (ask : Int → Fetched) : List Int → GetOutcome × List Int
  | [] => (.notFound, [])
  | np :: ps =>
    if (w.server_status np).1 = false then
      getPorts w ask ps
    else
      match ask np with
      | .threw => (.threw, [np])
      | .reply (.str (some v)) => (.retrieved v, [np])
      | .reply (.str none) => (.threw, [np])
      | .reply _ =>
        let rest := getPorts w ask ps
        (rest.1, np :: rest.2)

/-- The port computed by the loops of `put` and `get` for one value of `r`. -/
def portAt (node_port N : Int) (r : Nat) : Int :=
  BASE_PORT + Int.tmod (node_port + (r : Int)) N

/-- A candidate that lets the read scan pass on: it is offline, or it answers
with a reply that is not a string. -/
def Misses (w : World) (ask : Int → Fetched) (port : Int) : Prop :=
  (w.server_status port).1 = false ∨ ∃ r, ask port = .reply r ∧ ∀ t, r ≠ .str t


/-- Whether a call is a `bringUP`. -/
def Call.isBringUP : Call → Bool
  | .bringUP _ _ _ => true
  | _ => false

/-- Whether a call is a `put` to the given key. -/
def Call.putsKey (key : Int) : Call → Bool
  | .put k _ _ => decide (k = key)
  | _ => false

/-- A `bringUP` call that writes node entries when made on `w` (the node count
of `w` is still the sentinel `-1`, the check `N < reliabilityLevel` passes and
the loop runs at least once) is given a capacity `c` with `0 ≤ c ≤ INT_MAX`;
any other call passes. -/
def Call.installsOK (w : World) : Call → Bool
  | .bringUP N capacity reliabilityLevel =>
    decide (w.NUM_OF_SERVERS = -1 ∧ reliabilityLevel ≤ N ∧ 1 ≤ N →
      0 ≤ capacity ∧ capacity ≤ INT_MAX)
  | _ => true

/-- Along a sequence of calls started on `w`, every `bringUP` call that writes
node entries is given a capacity `c` with `0 ≤ c ≤ INT_MAX`. -/
def installsOK (w : World) : List Call → Bool
  | [] => true
  | c :: cs =>
    c.installsOK w &&
      (match step w c with
       | .ok r1 => installsOK r1.1 cs
       | .error _ => true)

/-- The ports named by the `failNode` calls of a sequence. -/
def failedPorts : List Call → List Int
  | [] => []
  | .failNode port :: cs => port :: failedPorts cs
  | _ :: cs => failedPorts cs

/-- The world a sequence of calls leaves when started on `Control()`; the
starting world itself when the process ends on the way. -/
def worldAfter (cs : List Call) : World :=
  match run Control cs with
  | .ok r => r.1
  | .error _ => Control

/-- The calls of `main` that come before its first `get`; every write is
acknowledged. -/
def mainWrites : List Call :=
  [.bringUP 5 3 2, .put 1 2 ackAll, .put 111 2 ackAll, .put 103 145 ackAll, .put 32 4 ackAll,
   .failNode 9001, .put 11 2 ackAll, .put 64 2 ackAll]

/-- The calls of `main` that change the state, up to the two calls at its
end (`get(103)` and `put(1111,20)`). -/
def mainCalls : List Call := mainWrites ++ [.failNode 9003]

/-- Equality of results in `Except` is decidable when it is on both sides. -/
instance instDecidableEqExcept {ε α : Type} [DecidableEq ε] [DecidableEq α] :
    DecidableEq (Except ε α)
  | .ok a, .ok b =>
    if h : a = b then isTrue (by rw [h])
    else isFalse (by intro h1; injection h1 with h2; exact h h2)
  | .error a, .error b =>
    if h : a = b then isTrue (by rw [h])
    else isFalse (by intro h1; injection h1 with h2; exact h h2)
  | .ok _, .error _ => isFalse (by intro h; cases h)
  | .error _, .ok _ => isFalse (by intro h; cases h)

instance instDecidableConfigured (w : World) : Decidable (Configured w) := by
  unfold Configured
  infer_instance
/-! ## Arithmetic of the candidate ring -/

theorem idx_bounds (h : Nat) (N : Int) (hN : 0 < N) :
    0 ≤ ((h % N.toNat : Nat) : Int) ∧ ((h % N.toNat : Nat) : Int) < N ∧
    ((h % N.toNat : Nat) : Int) = (h : Int) % N := by
  have h1 : ((N.toNat : Nat) : Int) = N := Int.toNat_of_nonneg hN.le
  have h2 : 0 < N.toNat := by omega
  refine ⟨by omega, ?_, ?_⟩
  · have := Nat.mod_lt h h2
    omega
  · rw [Int.natCast_mod, h1]

theorem mod_shift_inj (N i : Int) (a b : Nat) (hN : 0 < N) (ha : (a : Int) < N)
    (hb : (b : Int) < N) (h : (i + a) % N = (i + b) % N) : a = b := by
  have h0 : ((i + a) - (i + b)) % N = 0 := Int.emod_eq_emod_iff_emod_sub_eq_zero.mp h
  have h2 : ((a : Int) - b) % N = 0 := by
    have e : (i + a) - (i + b) = (a : Int) - b := by ring
    rwa [e] at h0
  obtain ⟨c, hc⟩ := Int.dvd_of_emod_eq_zero h2
  have hc0 : c = 0 := by
    by_contra hne
    rcases lt_or_gt_of_ne hne with hlt | hgt
    · have : N * c ≤ N * (-1) := Int.mul_le_mul_of_nonneg_left (by omega) hN.le
      nlinarith
    · have : N * 1 ≤ N * c := Int.mul_le_mul_of_nonneg_left (by omega) hN.le
      nlinarith
  subst hc0
  simp at hc
  omega

theorem getNodeIndex_ok (w : World) (key : Int) (hN : 0 < w.NUM_OF_SERVERS) :
    getNodeIndex w key = .ok ((hash_int key : Int) % w.NUM_OF_SERVERS) := by
  unfold getNodeIndex
  rw [if_neg (by omega), if_neg (by omega)]
  rw [(idx_bounds (hash_int key) w.NUM_OF_SERVERS hN).2.2]

theorem portAt_eq (key N : Int) (hN : 0 < N) (r : Nat) :
    portAt ((hash_int key : Int) % N) N r
      = BASE_PORT + ((hash_int key : Int) % N + (r : Int)) % N := by
  unfold portAt
  have h0 : 0 ≤ (hash_int key : Int) % N := Int.emod_nonneg _ (by omega)
  rw [Int.tmod_eq_emod (by omega) hN.le]

theorem ports_eq_candidates (w : World) (key : Int) (hN : 0 < w.NUM_OF_SERVERS) :
    (List.range w.RL.toNat).map (portAt ((hash_int key : Int) % w.NUM_OF_SERVERS)
      w.NUM_OF_SERVERS) = candidates w key := by
  unfold candidates replicaSet
  rw [List.map_map]
  apply List.map_congr_left
  intro r _
  simp [portAt_eq key _ hN]

theorem replicaSet_nodup (key RL N : Int) (hRL : RL ≤ N) (hN : 0 < N) :
    (replicaSet key RL N).Nodup := by
  unfold replicaSet
  refine (List.nodup_range _).map_on ?_
  intro a ha b hb hab
  simp only [List.mem_range] at ha hb
  exact mod_shift_inj N _ a b hN (by omega) (by omega) hab

theorem candidates_nodup (w : World) (key : Int) (hRL : w.RL ≤ w.NUM_OF_SERVERS)
    (hN : 0 < w.NUM_OF_SERVERS) : (candidates w key).Nodup := by
  unfold candidates
  refine (replicaSet_nodup key _ _ hRL hN).map_on ?_
  intro a _ b _ hab
  omega



/-! ## The write scan -/

theorem putBody_eq_visit (net : Int → SetOutcome) (key value idx : Int) (acc : PutAcc)
    (r : Nat) :
    putBody net key value idx acc r
      = visit net key value acc (portAt idx acc.world.NUM_OF_SERVERS r) := rfl

theorem visit_spec (net : Int → SetOutcome) (key value : Int) (acc : PutAcc) (p : Int) :
    (visit net key value acc p).log = acc.log ++ [(p, outcomeOf acc.world net p)] ∧
    (visit net key value acc p).no_success
      = acc.no_success + (if outcomeOf acc.world net p = .skippedOffline
          ∨ outcomeOf acc.world net p = .skippedFull then 1 else 0) ∧
    (∀ n, (visit net key value acc p).world.server_status n
      = if n = p ∧ outcomeOf acc.world net p = .success
        then ((acc.world.server_status n).1, wrapInt ((acc.world.server_status n).2 - 1))
        else acc.world.server_status n) ∧
    (∀ q k, (visit net key value acc p).world.node q k
      = if (q = p ∧ outcomeOf acc.world net p = .success) ∧ k = key
        then some value else acc.world.node q k) ∧
    (visit net key value acc p).world.NUM_OF_SERVERS = acc.world.NUM_OF_SERVERS ∧
    (visit net key value acc p).world.RL = acc.world.RL := by
  unfold visit outcomeOf p_put storeSet
  by_cases h1 : (acc.world.server_status p).1 = false
  · simp [h1]
  · by_cases h2 : (acc.world.server_status p).2 = 0
    · simp [h1, h2]
    · cases hn : net p
      · simp only [h1, h2, hn, if_false]
        refine ⟨rfl, by simp, ?_, ?_, rfl, rfl⟩
        · intro n
          by_cases hnp : n = p
          · subst hnp
            simp [setStatus]
            simpa using h1
          · simp [setStatus, hnp]
        · intro q k
          by_cases hq : q = p
          · subst hq; simp
          · simp [hq]
      · simp [h1, h2, hn]

theorem foldl_putBody (net : Int → SetOutcome) (key value idx : Int) :
    ∀ (rs : List Nat) (acc : PutAcc),
      rs.foldl (putBody net key value idx) acc
        = (rs.map (portAt idx acc.world.NUM_OF_SERVERS)).foldl (visit net key value) acc
  | [], _ => rfl
  | r :: rs, acc => by
    simp only [List.foldl_cons, List.map_cons]
    rw [foldl_putBody net key value idx rs, putBody_eq_visit,
      (visit_spec net key value acc _).2.2.2.2.1]

/-- The write scan over pairwise distinct ports, read off the world it started in. -/
theorem visitAll_exact (net : Int → SetOutcome) (key value : Int) :
    ∀ (ps : List Int) (acc : PutAcc), ps.Nodup →
      (ps.foldl (visit net key value) acc).log
        = acc.log ++ ps.map (fun p => (p, outcomeOf acc.world net p)) ∧
      (ps.foldl (visit net key value) acc).no_success
        = acc.no_success + ((ps.filter (fun p => decide (outcomeOf acc.world net p = .skippedOffline
            ∨ outcomeOf acc.world net p = .skippedFull))).length : Int) ∧
      (∀ n, (ps.foldl (visit net key value) acc).world.server_status n
        = if n ∈ ps ∧ outcomeOf acc.world net n = .success
          then ((acc.world.server_status n).1, wrapInt ((acc.world.server_status n).2 - 1))
          else acc.world.server_status n) ∧
      (∀ q k, (ps.foldl (visit net key value) acc).world.node q k
        = if (q ∈ ps ∧ outcomeOf acc.world net q = .success) ∧ k = key
          then some value else acc.world.node q k) ∧
      (ps.foldl (visit net key value) acc).world.NUM_OF_SERVERS = acc.world.NUM_OF_SERVERS ∧
      (ps.foldl (visit net key value) acc).world.RL = acc.world.RL
  | [], acc, _ => by simp
  | p :: ps, acc, hnd => by
    have hp : p ∉ ps := (List.nodup_cons.mp hnd).1
    obtain ⟨v1, v2, v3, v4, v5, v6⟩ := visit_spec net key value acc p
    obtain ⟨i1, i2, i3, i4, i5, i6⟩ :=
      visitAll_exact net key value ps (visit net key value acc p) (List.nodup_cons.mp hnd).2
    have same : ∀ n, n ∈ ps →
        outcomeOf (visit net key value acc p).world net n = outcomeOf acc.world net n := by
      intro n hn
      have hne : n ≠ p := fun h => hp (h ▸ hn)
      unfold outcomeOf
      rw [v3 n]
      simp [hne]
    simp only [List.foldl_cons]
    refine ⟨?_, ?_, ?_, ?_, ?_, ?_⟩
    · rw [i1, v1, List.map_cons, List.append_assoc]
      congr 1
      simp only [List.singleton_append, List.cons.injEq, true_and]
      exact List.map_congr_left (fun n hn => by rw [same n hn])
    · rw [i2, v2]
      have hf : ps.filter (fun q => decide (outcomeOf (visit net key value acc p).world net q
            = .skippedOffline ∨ outcomeOf (visit net key value acc p).world net q = .skippedFull))
          = ps.filter (fun q => decide (outcomeOf acc.world net q = .skippedOffline
            ∨ outcomeOf acc.world net q = .skippedFull)) :=
        List.filter_congr (fun n hn => by rw [same n hn])
      rw [hf, List.filter_cons]
      by_cases hs : outcomeOf acc.world net p = .skippedOffline
          ∨ outcomeOf acc.world net p = .skippedFull
      · rw [if_pos hs, if_pos (by simpa using hs), List.length_cons]
        push_cast
        omega
      · rw [if_neg hs, if_neg (by simpa using hs)]
        omega
    · intro n
      rw [i3 n]
      by_cases hn : n ∈ ps
      · have hne : n ≠ p := fun h => hp (h ▸ hn)
        rw [same n hn, v3 n]
        simp [hn, hne]
      · rw [v3 n]
        by_cases hnp : n = p
        · subst hnp; simp [hn]
        · simp [hn, hnp]
    · intro q k
      rw [i4 q k]
      by_cases hq : q ∈ ps
      · have hne : q ≠ p := fun h => hp (h ▸ hq)
        rw [same q hq, v4 q k]
        simp [hq, hne]
      · rw [v4 q k]
        by_cases hqp : q = p
        · subst hqp; simp [hq]
        · simp [hq, hqp]
    · rw [i5, v5]
    · rw [i6, v6]



/-- The write scan over any ports: what it never changes. -/
theorem visitAll_frame (net : Int → SetOutcome) (key value : Int) :
    ∀ (ps : List Int) (acc : PutAcc),
      (∀ n, ((ps.foldl (visit net key value) acc).world.server_status n).1
        = (acc.world.server_status n).1) ∧
      (∀ n, 0 ≤ (acc.world.server_status n).2 ∧ (acc.world.server_status n).2 ≤ INT_MAX →
        0 ≤ ((ps.foldl (visit net key value) acc).world.server_status n).2 ∧
        ((ps.foldl (visit net key value) acc).world.server_status n).2 ≤ INT_MAX) ∧
      (∀ e ∈ (ps.foldl (visit net key value) acc).log, e ∈ acc.log ∨
        (e.1 ∈ ps ∧ ((acc.world.server_status e.1).1 = false → e.2 = .skippedOffline))) ∧
      (∀ q k, k ≠ key → (ps.foldl (visit net key value) acc).world.node q k
        = acc.world.node q k) ∧
      (ps.foldl (visit net key value) acc).world.NUM_OF_SERVERS = acc.world.NUM_OF_SERVERS ∧
      (ps.foldl (visit net key value) acc).world.RL = acc.world.RL
  | [], acc => by simp
  | p :: ps, acc => by
    obtain ⟨v1, -, v3, v4, v5, v6⟩ := visit_spec net key value acc p
    obtain ⟨i1, i2, i3, i4, i5, i6⟩ :=
      visitAll_frame net key value ps (visit net key value acc p)
    have flag : ∀ n, ((visit net key value acc p).world.server_status n).1
        = (acc.world.server_status n).1 := by
      intro n
      rw [v3 n]
      split_ifs <;> rfl
    simp only [List.foldl_cons]
    refine ⟨?_, ?_, ?_, ?_, ?_, ?_⟩
    · intro n
      rw [i1 n, flag n]
    · intro n hn
      apply i2 n
      rw [v3 n]
      split_ifs with h
      · have hs := h.2
        have hne : (acc.world.server_status n).2 ≠ 0 := by
          intro h0
          rw [← h.1] at hs
          unfold outcomeOf at hs
          rw [h0] at hs
          split_ifs at hs with a b
          exact b rfl
        show 0 ≤ wrapInt ((acc.world.server_status n).2 - 1)
          ∧ wrapInt ((acc.world.server_status n).2 - 1) ≤ INT_MAX
        unfold INT_MAX at hn
        unfold wrapInt INT_MAX
        omega
      · exact hn
    · intro e he
      rcases i3 e he with h | ⟨h, hoff⟩
      · rw [v1] at h
        rcases List.mem_append.mp h with h | h
        · exact Or.inl h
        · right
          have he1 : e = (p, outcomeOf acc.world net p) := by simpa using h
          subst he1
          refine ⟨by simp, ?_⟩
          intro hoff
          show outcomeOf acc.world net p = .skippedOffline
          unfold outcomeOf
          rw [if_pos hoff]
      · right
        refine ⟨List.mem_cons_of_mem _ h, ?_⟩
        intro hf
        apply hoff
        rw [flag]
        exact hf
    · intro q k hk
      rw [i4 q k hk, v4 q k]
      simp [hk]
    · rw [i5, v5]
    · rw [i6, v6]

/-- Unfolding of `put` on a world whose node count is positive. -/
theorem put_eq (w : World) (net : Int → SetOutcome) (key value : Int)
    (hN : 0 < w.NUM_OF_SERVERS) :
    put w net key value = .ok
      { world := ((candidates w key).foldl (visit net key value) ⟨w, 0, []⟩).world
        log := ((candidates w key).foldl (visit net key value) ⟨w, 0, []⟩).log
        noEligible := decide
          (w.RL = ((candidates w key).foldl (visit net key value) ⟨w, 0, []⟩).no_success) } := by
  unfold put
  rw [getNodeIndex_ok w key hN]
  simp only
  rw [foldl_putBody, ports_eq_candidates w key hN]

theorem put_ok_pos (w : World) (net : Int → SetOutcome) (key value : Int) (res : PutResult)
    (h : put w net key value = .ok res) : 0 < w.NUM_OF_SERVERS := by
  unfold put getNodeIndex at h
  by_contra hN
  by_cases h1 : w.NUM_OF_SERVERS < 0
  · simp [h1] at h
  · have h2 : w.NUM_OF_SERVERS = 0 := by omega
    simp [h2] at h

theorem candidates_length (w : World) (key : Int) :
    (candidates w key).length = w.RL.toNat := by
  simp [candidates, replicaSet]

/-- The effect of `put` on a world with `0 < N` and `RL ≤ N`. -/
theorem put_exact (w : World) (net : Int → SetOutcome) (key value : Int)
    (hN : 0 < w.NUM_OF_SERVERS) (hRL : w.RL ≤ w.NUM_OF_SERVERS) :
    ∃ res, put w net key value = .ok res ∧
      res.log = (candidates w key).map (fun p => (p, outcomeOf w net p)) ∧
      res.noEligible = decide (w.RL = (((candidates w key).filter
        (fun p => decide (outcomeOf w net p = .skippedOffline
          ∨ outcomeOf w net p = .skippedFull))).length : Int)) ∧
      (∀ n, res.world.server_status n
        = if n ∈ candidates w key ∧ outcomeOf w net n = .success
          then ((w.server_status n).1, wrapInt ((w.server_status n).2 - 1))
          else w.server_status n) ∧
      (∀ q k, res.world.node q k
        = if (q ∈ candidates w key ∧ outcomeOf w net q = .success) ∧ k = key
          then some value else w.node q k) ∧
      res.world.NUM_OF_SERVERS = w.NUM_OF_SERVERS ∧ res.world.RL = w.RL := by
  obtain ⟨e1, e2, e3, e4, e5, e6⟩ :=
    visitAll_exact net key value (candidates w key) ⟨w, 0, []⟩ (candidates_nodup w key hRL hN)
  refine ⟨_, put_eq w net key value hN, ?_, ?_, e3, e4, e5, e6⟩
  · simpa using e1
  · simp only [e2, zero_add]

/-- What `put` never changes, on any world. -/
theorem put_frame (w : World) (net : Int → SetOutcome) (key value : Int) (res : PutResult)
    (h : put w net key value = .ok res) :
    (∀ n, (res.world.server_status n).1 = (w.server_status n).1) ∧
    (∀ n, 0 ≤ (w.server_status n).2 ∧ (w.server_status n).2 ≤ INT_MAX →
      0 ≤ (res.world.server_status n).2 ∧ (res.world.server_status n).2 ≤ INT_MAX) ∧
    (∀ e ∈ res.log, e.1 ∈ candidates w key ∧
      ((w.server_status e.1).1 = false → e.2 = .skippedOffline)) ∧
    (∀ q k, k ≠ key → res.world.node q k = w.node q k) ∧
    res.world.NUM_OF_SERVERS = w.NUM_OF_SERVERS ∧ res.world.RL = w.RL := by
  have hN := put_ok_pos w net key value res h
  rw [put_eq w net key value hN] at h
  obtain ⟨f1, f2, f3, f4, f5, f6⟩ :=
    visitAll_frame net key value (candidates w key) ⟨w, 0, []⟩
  injection h with h
  subst h
  refine ⟨f1, f2, ?_, f4, f5, f6⟩
  intro e he
  rcases f3 e he with h | h
  · simp at h
  · exact h

/-! ## The read scan -/

theorem getLoop_eq_getPorts (w : World) (ask : Int → Fetched) (key idx : Int) :
    ∀ rs : List Nat,
      getLoop w ask key idx rs = getPorts w ask (rs.map (portAt idx w.NUM_OF_SERVERS))
  | [] => rfl
  | r :: rs => by
    simp only [getLoop, getPorts, List.map_cons, p_get, portAt]
    rw [getLoop_eq_getPorts w ask key idx rs]

theorem get_eq (w : World) (ask : Int → Fetched) (key : Int) (hN : 0 < w.NUM_OF_SERVERS) :
    get w ask key = .ok (getPorts w ask (candidates w key)) := by
  unfold get
  rw [getNodeIndex_ok w key hN]
  simp only
  rw [getLoop_eq_getPorts, ports_eq_candidates w key hN]

theorem get_ok_pos (w : World) (ask : Int → Fetched) (key : Int) (res : GetOutcome × List Int)
    (h : get w ask key = .ok res) : 0 < w.NUM_OF_SERVERS := by
  unfold get getNodeIndex at h
  by_contra hN
  by_cases h1 : w.NUM_OF_SERVERS < 0
  · simp [h1] at h
  · have h2 : w.NUM_OF_SERVERS = 0 := by omega
    simp [h2] at h

theorem getPorts_queried (w : World) (ask : Int → Fetched) :
    ∀ (ps : List Int), ∀ p ∈ (getPorts w ask ps).2, p ∈ ps ∧ (w.server_status p).1 = true
  | [], p, h => by simp [getPorts] at h
  | np :: ps, p, h => by
    unfold getPorts at h
    by_cases h1 : (w.server_status np).1 = false
    · rw [if_pos h1] at h
      have := getPorts_queried w ask ps p h
      exact ⟨List.mem_cons_of_mem _ this.1, this.2⟩
    · rw [if_neg h1] at h
      have hon : (w.server_status np).1 = true := by simpa using h1
      cases ha : ask np with
      | threw =>
        rw [ha] at h
        have : p = np := by simpa using h
        subst this
        exact ⟨by simp, hon⟩
      | reply r =>
        rw [ha] at h
        cases r with
        | str t =>
          have : p = np := by cases t <;> simpa using h
          subst this
          exact ⟨by simp, hon⟩
        | nil | error | other =>
          simp only [List.mem_cons] at h
          rcases h with h | h
          · subst h
            exact ⟨by simp, hon⟩
          · have := getPorts_queried w ask ps p h
            exact ⟨List.mem_cons_of_mem _ this.1, this.2⟩

theorem getPorts_step_miss (w : World) (ask : Int → Fetched) (x : Int) (ps : List Int)
    (hx : Misses w ask x) :
    getPorts w ask (x :: ps)
      = ((getPorts w ask ps).1,
          (if (w.server_status x).1 = true then [x] else []) ++ (getPorts w ask ps).2) := by
  rcases hx with hoff | ⟨r, hr, hns⟩
  · simp [getPorts, hoff]
  · by_cases h1 : (w.server_status x).1 = false
    · simp [getPorts, h1]
    · have hon : (w.server_status x).1 = true := by simpa using h1
      cases r with
      | str v => exact absurd rfl (hns v)
      | nil | error | other => simp [getPorts, hr, hon]

theorem getPorts_after_misses (w : World) (ask : Int → Fetched) :
    ∀ (pre rest : List Int), (∀ x ∈ pre, Misses w ask x) →
      getPorts w ask (pre ++ rest)
        = ((getPorts w ask rest).1,
            pre.filter (fun x => (w.server_status x).1) ++ (getPorts w ask rest).2)
  | [], rest, _ => by simp
  | x :: pre, rest, h => by
    have hx := h x (by simp)
    have ih := getPorts_after_misses w ask pre rest (fun y hy => h y (List.mem_cons_of_mem _ hy))
    rw [List.cons_append, getPorts_step_miss w ask x _ hx, ih, List.filter_cons]
    by_cases h1 : (w.server_status x).1 = true
    · simp [h1]
    · simp [h1]

theorem getPorts_notFound_iff (w : World) (ask : Int → Fetched) :
    ∀ (ps : List Int), (getPorts w ask ps).1 = .notFound ↔ ∀ p ∈ ps, Misses w ask p
  | [] => by simp [getPorts]
  | x :: ps => by
    have ih := getPorts_notFound_iff w ask ps
    constructor
    · intro h p hp
      unfold getPorts at h
      by_cases h1 : (w.server_status x).1 = false
      · rw [if_pos h1] at h
        rcases List.mem_cons.mp hp with hp | hp
        · subst hp
          exact Or.inl h1
        · exact ih.mp h p hp
      · rw [if_neg h1] at h
        cases ha : ask x with
        | threw => rw [ha] at h; simp at h
        | reply r =>
          rw [ha] at h
          cases r with
          | str t => cases t <;> simp at h
          | nil | error | other =>
            rcases List.mem_cons.mp hp with hp | hp
            · subst hp
              exact Or.inr ⟨_, ha, by intro v; simp⟩
            · exact ih.mp h p hp
    · intro h
      rw [getPorts_step_miss w ask x ps (h x (by simp))]
      exact ih.mpr (fun p hp => h p (List.mem_cons_of_mem _ hp))



/-! ## Bring-up and sequences of calls -/

theorem bringUP_fill (m : Int → Bool × Int) (capacity : Int) (n : Int) :
    ∀ k : Nat, ((List.range k).foldl
        (fun m (i : Nat) => setStatus m (BASE_PORT + (i : Int)) (true, capacity)) m) n
      = if BASE_PORT ≤ n ∧ n < BASE_PORT + (k : Int) then (true, capacity) else m n
  | 0 => by
    simp only [List.range_zero, List.foldl_nil]
    rw [if_neg]
    push_cast
    omega
  | k + 1 => by
    rw [List.range_succ, List.foldl_append, List.foldl_cons, List.foldl_nil]
    show (if n = BASE_PORT + (k : Int) then (true, capacity)
      else ((List.range k).foldl
        (fun m (i : Nat) => setStatus m (BASE_PORT + (i : Int)) (true, capacity)) m) n) = _
    rw [bringUP_fill m capacity n k]
    by_cases h1 : n = BASE_PORT + (k : Int)
    · rw [if_pos h1, if_pos]
      push_cast
      omega
    · rw [if_neg h1]
      by_cases h2 : BASE_PORT ≤ n ∧ n < BASE_PORT + (k : Int)
      · rw [if_pos h2, if_pos]
        push_cast
        omega
      · rw [if_neg h2, if_neg]
        push_cast
        omega

/-- The three ways a call of `bringUP` can go. -/
theorem bringUP_cases (w : World) (N capacity RL : Int) :
    (N < RL ∧ bringUP w N capacity RL = .error .exitBringUP) ∨
    (RL ≤ N ∧ w.NUM_OF_SERVERS ≠ -1 ∧ bringUP w N capacity RL = .ok w) ∨
    (RL ≤ N ∧ w.NUM_OF_SERVERS = -1 ∧ ∃ w1, bringUP w N capacity RL = .ok w1 ∧
      w1.NUM_OF_SERVERS = N ∧ w1.RL = RL ∧ w1.node = w.node ∧
      ∀ n, w1.server_status n
        = if BASE_PORT ≤ n ∧ n < BASE_PORT + N then (true, capacity) else w.server_status n) := by
  unfold bringUP
  by_cases h1 : N < RL
  · left
    exact ⟨h1, by rw [if_pos h1]⟩
  · right
    rw [if_neg h1]
    by_cases h2 : w.NUM_OF_SERVERS ≠ -1
    · left
      exact ⟨by omega, h2, by rw [if_pos h2]⟩
    · right
      rw [if_neg h2]
      refine ⟨by omega, by simpa using h2, _, rfl, rfl, rfl, rfl, ?_⟩
      intro n
      show ((List.range N.toNat).foldl _ w.server_status) n = _
      rw [bringUP_fill]
      by_cases hN : 0 ≤ N
      · rw [Int.toNat_of_nonneg hN]
      · have h0 : N.toNat = 0 := by omega
        rw [h0, if_neg, if_neg] <;> omega

theorem attempted_mem (log : List (Int × Outcome)) (p : Int) (h : p ∈ attempted log) :
    ∃ e ∈ log, e.1 = p ∧ (e.2 = .success ∨ e.2 = .failedTransport) := by
  unfold attempted at h
  obtain ⟨e, he, hp⟩ := List.mem_map.mp h
  have hf := List.mem_filter.mp he
  exact ⟨e, hf.1, hp, by simpa using hf.2⟩

/-- One call: what it does to the configuration, the flags, the capacities and
the stores, and which ports it reaches. -/
theorem step_frame (w : World) (c : Call) (r : World × List Event) (h : step w c = .ok r) :
    (w.NUM_OF_SERVERS ≠ -1 ∨ c.isBringUP = false →
      r.1.NUM_OF_SERVERS = w.NUM_OF_SERVERS ∧ r.1.RL = w.RL ∧
      ∀ x, (r.1.server_status x).1
        = ((w.server_status x).1 && decide (x ∉ failedPorts [c]))) ∧
    (c.installsOK w = true →
      (∀ n, 0 ≤ (w.server_status n).2 ∧ (w.server_status n).2 ≤ INT_MAX) →
      ∀ n, 0 ≤ (r.1.server_status n).2 ∧ (r.1.server_status n).2 ≤ INT_MAX) ∧
    (∀ k, c.putsKey k = false → ∀ q, r.1.node q k = w.node q k) ∧
    (∀ x, (w.server_status x).1 = false → Event.write x ∉ r.2 ∧ Event.read x ∉ r.2) := by
  cases c with
  | bringUP N capacity RL =>
    simp only [step] at h
    rcases bringUP_cases w N capacity RL with
      ⟨-, e⟩ | ⟨-, hne, e⟩ | ⟨hle, heq, w1, e, -, -, hnode, hst⟩
    · rw [e] at h; simp at h
    · rw [e] at h
      injection h with h
      subst h
      refine ⟨?_, fun _ hinv => hinv, fun _ _ _ => rfl, by simp⟩
      intro _
      exact ⟨rfl, rfl, fun x => by simp [failedPorts]⟩
    · rw [e] at h
      injection h with h
      subst h
      refine ⟨?_, ?_, ?_, by simp⟩
      · intro hor
        rcases hor with hor | hor
        · exact absurd heq hor
        · simp [Call.isBringUP] at hor
      · intro hok hinv n
        rw [hst n]
        split_ifs with hin
        · have hcap : 0 ≤ capacity ∧ capacity ≤ INT_MAX := by
            simp only [Call.installsOK, decide_eq_true_eq] at hok
            exact hok ⟨heq, hle, by omega⟩
          exact hcap
        · exact hinv n
      · intro k _ q
        rw [hnode]
  | put key value net =>
    simp only [step] at h
    cases hp : put w net key value with
    | error e => rw [hp] at h; simp at h
    | ok res =>
      rw [hp] at h
      injection h with h
      subst h
      obtain ⟨f1, f2, f3, f4, f5, f6⟩ := put_frame w net key value res hp
      refine ⟨?_, ?_, ?_, ?_⟩
      · intro _
        exact ⟨f5, f6, fun x => by simp [failedPorts, f1 x]⟩
      · intro _ hinv n
        exact f2 n (hinv n)
      · intro k hk q
        apply f4
        intro hkk
        simp [Call.putsKey, hkk] at hk
      · intro x hx
        refine ⟨?_, by simp⟩
        intro hmem
        obtain ⟨p, hp1, hp2⟩ := List.mem_map.mp hmem
        injection hp2 with hp2
        subst hp2
        obtain ⟨e, he, he1, he2⟩ := attempted_mem res.log p hp1
        have := (f3 e he).2 (by rw [he1]; exact hx)
        rw [this] at he2
        simp at he2
  | get key ask =>
    simp only [step] at h
    cases hg : get w ask key with
    | error e => rw [hg] at h; simp at h
    | ok res =>
      rw [hg] at h
      injection h with h
      subst h
      refine ⟨fun _ => ⟨rfl, rfl, fun x => by simp [failedPorts]⟩, fun _ hinv => hinv,
        fun _ _ _ => rfl, ?_⟩
      intro x hx
      refine ⟨by simp, ?_⟩
      intro hmem
      obtain ⟨p, hp1, hp2⟩ := List.mem_map.mp hmem
      injection hp2 with hp2
      subst hp2
      have hN := get_ok_pos w ask key res hg
      rw [get_eq w ask key hN] at hg
      injection hg with hg
      subst hg
      have := (getPorts_queried w ask _ p hp1).2
      rw [hx] at this
      simp at this
  | failNode port =>
    simp only [step] at h
    injection h with h
    subst h
    refine ⟨fun _ => ⟨rfl, rfl, ?_⟩, ?_, fun _ _ _ => rfl, by simp⟩
    · intro x
      by_cases hx : x = port
      · subst hx
        simp [failNode, setStatus, failedPorts]
      · simp [failNode, setStatus, failedPorts, hx]
    · intro _ hinv n
      by_cases hn : n = port
      · subst hn
        simpa [failNode, setStatus] using hinv n
      · simpa [failNode, setStatus, hn] using hinv n

theorem run_cons (w : World) (c : Call) (cs : List Call) (r : World × List Event)
    (h : run w (c :: cs) = .ok r) :
    ∃ r1 r2, step w c = .ok r1 ∧ run r1.1 cs = .ok r2 ∧ r = (r2.1, r1.2 ++ r2.2) := by
  simp only [run] at h
  cases h1 : step w c with
  | error e => rw [h1] at h; simp at h
  | ok r1 =>
    rw [h1] at h
    simp only at h
    cases h2 : run r1.1 cs with
    | error e => rw [h2] at h; simp at h
    | ok r2 =>
      rw [h2] at h
      injection h with h
      exact ⟨r1, r2, rfl, h2, h.symm⟩

theorem failedPorts_cons (c : Call) (cs : List Call) :
    failedPorts (c :: cs) = failedPorts [c] ++ failedPorts cs := by
  cases c <;> simp [failedPorts]

theorem run_nil (w : World) (r : World × List Event) (h : run w [] = .ok r) : r = (w, []) := by
  simp only [run] at h
  injection h with h
  exact h.symm

/-- A sequence of calls that cannot install a configuration keeps `N` and `RL`,
and a port is online after it exactly when it was online before and no
`failNode` of the sequence names it. -/
theorem run_config (cs : List Call) : ∀ (w : World) (r : World × List Event),
    run w cs = .ok r → (w.NUM_OF_SERVERS ≠ -1 ∨ ∀ c ∈ cs, c.isBringUP = false) →
      r.1.NUM_OF_SERVERS = w.NUM_OF_SERVERS ∧ r.1.RL = w.RL ∧
      ∀ x, (r.1.server_status x).1 = ((w.server_status x).1 && decide (x ∉ failedPorts cs)) := by
  induction cs with
  | nil =>
    intro w r h _
    rw [run_nil w r h]
    simp [failedPorts]
  | cons c cs ih =>
    intro w r h hor
    obtain ⟨r1, r2, h1, h2, hr⟩ := run_cons w c cs r h
    subst hr
    have hc : w.NUM_OF_SERVERS ≠ -1 ∨ c.isBringUP = false := by
      rcases hor with hor | hor
      · exact Or.inl hor
      · exact Or.inr (hor c (by simp))
    obtain ⟨a1, a2, a3⟩ := (step_frame w c r1 h1).1 hc
    have hcs : r1.1.NUM_OF_SERVERS ≠ -1 ∨ ∀ c ∈ cs, c.isBringUP = false := by
      rcases hor with hor | hor
      · exact Or.inl (by rw [a1]; exact hor)
      · exact Or.inr (fun d hd => hor d (List.mem_cons_of_mem _ hd))
    obtain ⟨b1, b2, b3⟩ := ih r1.1 r2 h2 hcs
    refine ⟨by rw [b1, a1], by rw [b2, a2], ?_⟩
    intro x
    show (r2.1.server_status x).1 = _
    rw [b3 x, a3 x, failedPorts_cons c cs]
    simp only [List.mem_append, not_or, Bool.decide_and, Bool.and_assoc]

/-- Capacities within `[0, INT_MAX]` stay there along a sequence of calls in
which every `bringUP` that writes node entries is given such a capacity. -/
theorem run_capacity (cs : List Call) : ∀ (w : World) (r : World × List Event),
    run w cs = .ok r → installsOK w cs = true →
      (∀ n, 0 ≤ (w.server_status n).2 ∧ (w.server_status n).2 ≤ INT_MAX) →
      ∀ n, 0 ≤ (r.1.server_status n).2 ∧ (r.1.server_status n).2 ≤ INT_MAX := by
  induction cs with
  | nil =>
    intro w r h _ hinv
    rw [run_nil w r h]
    exact hinv
  | cons c cs ih =>
    intro w r h hok hinv
    obtain ⟨r1, r2, h1, h2, hr⟩ := run_cons w c cs r h
    subst hr
    simp only [installsOK, h1, Bool.and_eq_true] at hok
    exact ih r1.1 r2 h2 hok.2 ((step_frame w c r1 h1).2.1 hok.1 hinv)

/-- A sequence of calls without a `put` to `key` leaves what every store holds
for `key` as it was. -/
theorem run_node (key : Int) (cs : List Call) : ∀ (w : World) (r : World × List Event),
    run w cs = .ok r → (∀ c ∈ cs, c.putsKey key = false) → ∀ q, r.1.node q key = w.node q key := by
  induction cs with
  | nil =>
    intro w r h _ q
    rw [run_nil w r h]
  | cons c cs ih =>
    intro w r h hno q
    obtain ⟨r1, r2, h1, h2, hr⟩ := run_cons w c cs r h
    subst hr
    show r2.1.node q key = _
    rw [ih r1.1 r2 h2 (fun d hd => hno d (List.mem_cons_of_mem _ hd)) q]
    exact (step_frame w c r1 h1).2.2.1 key (hno c (by simp)) q

/-- No client call of a sequence of calls that cannot install a configuration
reaches a port that was offline at its start. -/
theorem run_offline (cs : List Call) : ∀ (w : World) (r : World × List Event),
    run w cs = .ok r → (w.NUM_OF_SERVERS ≠ -1 ∨ ∀ c ∈ cs, c.isBringUP = false) →
      ∀ x, (w.server_status x).1 = false → Event.write x ∉ r.2 ∧ Event.read x ∉ r.2 := by
  induction cs with
  | nil =>
    intro w r h _ x _
    rw [run_nil w r h]
    simp
  | cons c cs ih =>
    intro w r h hor x hx
    obtain ⟨r1, r2, h1, h2, hr⟩ := run_cons w c cs r h
    subst hr
    have hc : w.NUM_OF_SERVERS ≠ -1 ∨ c.isBringUP = false := by
      rcases hor with hor | hor
      · exact Or.inl hor
      · exact Or.inr (hor c (by simp))
    obtain ⟨a1, -, a3⟩ := (step_frame w c r1 h1).1 hc
    have hcs : r1.1.NUM_OF_SERVERS ≠ -1 ∨ ∀ c ∈ cs, c.isBringUP = false := by
      rcases hor with hor | hor
      · exact Or.inl (by rw [a1]; exact hor)
      · exact Or.inr (fun d hd => hor d (List.mem_cons_of_mem _ hd))
    have hx1 : (r1.1.server_status x).1 = false := by
      rw [a3 x, hx]
      rfl
    have s1 := (step_frame w c r1 h1).2.2.2 x hx
    have s2 := ih r1.1 r2 h2 hcs x hx1
    simp only [List.mem_append, not_or]
    exact ⟨⟨s1.1, s2.1⟩, ⟨s1.2, s2.2⟩⟩

theorem outcomeOf_success_iff (w : World) (net : Int → SetOutcome) (p : Int) :
    outcomeOf w net p = .success
      ↔ (w.server_status p).1 = true ∧ (w.server_status p).2 ≠ 0 ∧ net p = .ack := by
  unfold outcomeOf
  by_cases h1 : (w.server_status p).1 = false
  · simp [h1]
  · by_cases h2 : (w.server_status p).2 = 0
    · simp [h1, h2]
    · cases hn : net p <;> simp [h1, h2]

theorem outcomeOf_skipped_iff (w : World) (net : Int → SetOutcome) (p : Int) :
    (outcomeOf w net p = .skippedOffline ∨ outcomeOf w net p = .skippedFull)
      ↔ ((w.server_status p).1 = false ∨ (w.server_status p).2 = 0) := by
  unfold outcomeOf
  by_cases h1 : (w.server_status p).1 = false
  · simp [h1]
  · by_cases h2 : (w.server_status p).2 = 0
    · simp [h1, h2]
    · cases hn : net p <;> simp [h1, h2]

/-- Every state reached from `Control()` by `bringUP(N, cap0, RL)` with
`1 ≤ RL ≤ N` and any further calls is a configured one, with this `N` and `RL`. -/
theorem reachable_configured (N cap0 RL : Int) (cs : List Call) (r : World × List Event)
    (h1 : 1 ≤ RL) (h2 : RL ≤ N) (h : run Control (.bringUP N cap0 RL :: cs) = .ok r) :
    r.1.NUM_OF_SERVERS = N ∧ r.1.RL = RL ∧ Configured r.1 := by
  obtain ⟨r1, r2, hs, hr2, hr⟩ := run_cons Control _ cs r h
  subst hr
  simp only [step] at hs
  rcases bringUP_cases Control N cap0 RL with ⟨hlt, -⟩ | ⟨-, hne, -⟩ | ⟨-, -, w1, e, e1, e2, -⟩
  · omega
  · exact absurd rfl hne
  · rw [e] at hs
    injection hs with hs
    subst hs
    obtain ⟨a1, a2, -⟩ := run_config cs w1 r2 hr2 (Or.inl (by rw [e1]; omega))
    show r2.1.NUM_OF_SERVERS = N ∧ r2.1.RL = RL ∧ Configured r2.1
    unfold Configured
    rw [a1, a2, e1, e2]
    exact ⟨rfl, rfl, h1, h2⟩

/-- Once a node count other than the sentinel `-1` is installed, no `bringUP`
writes node entries any more: every sequence of calls passes `installsOK`. -/
theorem installsOK_of_installed (cs : List Call) : ∀ (w : World),
    w.NUM_OF_SERVERS ≠ -1 → installsOK w cs = true := by
  induction cs with
  | nil =>
    intro w _
    rfl
  | cons c cs ih =>
    intro w hw
    have hc : c.installsOK w = true := by
      cases c with
      | bringUP N capacity RL =>
        simp only [Call.installsOK, decide_eq_true_eq]
        intro h
        exact absurd h.1 hw
      | put key value net => rfl
      | get key ask => rfl
      | failNode port => rfl
    simp only [installsOK, hc, Bool.true_and]
    cases hs : step w c with
    | error e => rfl
    | ok r1 =>
      apply ih
      rw [((step_frame w c r1 hs).1 (Or.inl hw)).1]
      exact hw

/-- A read served from the stores: when `p` is online and holds `value` for
`key`, and every online port scanned before `p` holds nothing or `value`, the
scan retrieves `value`, whatever the ports after `p` hold. -/
theorem getPorts_served_split (w : World) (key value : Int) (p : Int) (post : List Int)
    (hon : (w.server_status p).1 = true) (hv : w.node p key = some value) :
    ∀ pre : List Int,
      (∀ x ∈ pre, (w.server_status x).1 = true →
        w.node x key = none ∨ w.node x key = some value) →
      (getPorts w (served w key) (pre ++ p :: post)).1 = .retrieved value
  | [], _ => by
    have hs : served w key p = .reply (.str (some value)) := by simp [served, hv]
    simp only [List.nil_append]
    unfold getPorts
    rw [if_neg (by simp [hon]), hs]
  | x :: pre, hall => by
    have ih := getPorts_served_split w key value p post hon hv pre
      (fun y hy => hall y (List.mem_cons_of_mem _ hy))
    rw [List.cons_append]
    unfold getPorts
    by_cases h1 : (w.server_status x).1 = false
    · rw [if_pos h1]
      exact ih
    · rw [if_neg h1]
      rcases hall x (by simp) (by simpa using h1) with hx | hx
      · have hs : served w key x = .reply .nil := by simp [served, hx]
        rw [hs]
        exact ih
      · have hs : served w key x = .reply (.str (some value)) := by simp [served, hx]
        rw [hs]

/-! ## The claims -/

theorem candidates_congr (w w1 : World) (key : Int) (hN : w1.NUM_OF_SERVERS = w.NUM_OF_SERVERS)
    (hRL : w1.RL = w.RL) : candidates w1 key = candidates w key := by
  unfold candidates
  rw [hN, hRL]

/-- C4 (replica set shape).  For every integer key and every `N`, `RL` with
`1 ≤ RL ≤ N`: the candidate sequence `replicaSet key RL N` is a function of
`(key, RL, N)` alone; it has `RL` entries, the entry at position `r` being
`(hash(key) mod N + r) mod N`, so it starts at `hash(key) mod N`; its entries
are pairwise distinct and lie in `[0, N)`; in every world with this `N` and
`RL`, `getNodeIndex` returns `hash(key) mod N`, `put` scans exactly the ports
`BASE_PORT + index` of this sequence in this order, and `get` runs its scan
over the same list of ports in the same order, calling `p_get` on an initial
segment of those of them that are online. -/
theorem C4_replica_set_shape (key N RL : Int) (h1 : 1 ≤ RL) (h2 : RL ≤ N) :
    ((replicaSet key RL N).length : Int) = RL ∧
    (∀ r : Nat, (r : Int) < RL →
      (replicaSet key RL N)[r]? = some (((hash_int key : Int) % N + (r : Int)) % N)) ∧
    (replicaSet key RL N).head? = some ((hash_int key : Int) % N) ∧
    (replicaSet key RL N).Nodup ∧
    (∀ i ∈ replicaSet key RL N, 0 ≤ i ∧ i < N) ∧
    ∀ w : World, w.NUM_OF_SERVERS = N → w.RL = RL →
      candidates w key = (replicaSet key RL N).map (fun i => BASE_PORT + i) ∧
      getNodeIndex w key = .ok ((hash_int key : Int) % N) ∧
      (∀ net value, ∃ res, put w net key value = .ok res ∧
        res.log.map (fun e => e.1) = candidates w key) ∧
      (∀ ask, get w ask key = .ok (getPorts w ask (candidates w key)) ∧
        (getPorts w ask (candidates w key)).2
          <+: (candidates w key).filter (fun p => (w.server_status p).1)) := by
  have hN : 0 < N := by omega
  have hlen : (replicaSet key RL N).length = RL.toNat := by simp [replicaSet]
  have hget : ∀ r : Nat, (r : Int) < RL →
      (replicaSet key RL N)[r]? = some (((hash_int key : Int) % N + (r : Int)) % N) := by
    intro r hr
    have hr2 : r < RL.toNat := by omega
    simp [replicaSet, List.getElem?_range hr2]
  refine ⟨by rw [hlen]; omega, hget, ?_, replicaSet_nodup key RL N h2 hN, ?_, ?_⟩
  · have h0 := hget 0 (by simpa using h1)
    rw [List.head?_eq_getElem?, h0]
    have hb : 0 ≤ (hash_int key : Int) % N := Int.emod_nonneg _ (by omega)
    have hlt : (hash_int key : Int) % N < N := Int.emod_lt_of_pos _ hN
    simp [Int.emod_eq_of_lt hb hlt]
  · intro i hi
    unfold replicaSet at hi
    obtain ⟨r, -, rfl⟩ := List.mem_map.mp hi
    exact ⟨Int.emod_nonneg _ (by omega), Int.emod_lt_of_pos _ hN⟩
  · intro w hwN hwRL
    have hN1 : 0 < w.NUM_OF_SERVERS := by omega
    have hR1 : w.RL ≤ w.NUM_OF_SERVERS := by omega
    refine ⟨by unfold candidates; rw [hwN, hwRL], ?_, ?_, ?_⟩
    · rw [getNodeIndex_ok w key hN1, hwN]
    · intro net value
      obtain ⟨res, hp, hlog, -⟩ := put_exact w net key value hN1 hR1
      refine ⟨res, hp, ?_⟩
      rw [hlog, List.map_map]
      exact List.map_id _
    · intro ask
      refine ⟨get_eq w ask key hN1, ?_⟩
      generalize candidates w key = ps
      induction ps with
      | nil => simp [getPorts]
      | cons x ps ih =>
        unfold getPorts
        by_cases hx : (w.server_status x).1 = false
        · rw [if_pos hx, List.filter_cons, if_neg (by simp [hx])]
          exact ih
        · have hon : (w.server_status x).1 = true := by simpa using hx
          rw [if_neg hx, List.filter_cons, if_pos hon]
          cases ha : ask x with
          | threw => simp
          | reply r =>
            cases r with
            | str t => cases t <;> simp
            | nil | error | other =>
              simp only [List.cons_prefix_cons, true_and]
              exact ih

/-- C4, at a negative key: the replica set of key `-7` for `RL = 2`, `N = 5`. -/
theorem C4_replica_set_shape_witness :
    (1 : Int) ≤ 2 ∧ (2 : Int) ≤ 5 ∧ replicaSet (-7) 2 5 = [4, 0] ∧
      (replicaSet (-7) 2 5).Nodup ∧ ∀ i ∈ replicaSet (-7) 2 5, 0 ≤ i ∧ i < 5 :=
  ⟨by decide, by decide, by decide!,
    (C4_replica_set_shape (-7) 5 2 (by decide) (by decide)).2.2.2.1,
    (C4_replica_set_shape (-7) 5 2 (by decide) (by decide)).2.2.2.2.1⟩

/-- C5, as stated, fails where the decrement leaves the range of `int`.
From `Control()`, `bringUP(1, INT_MIN, 1)` brings up the single node 9000 with
capacity `INT_MIN`, a configured cluster; `put(0, 1)` finds 9000 online with a
capacity other than `0`, the write is acknowledged, and the capacity after the
call is `INT_MAX`, not the capacity before minus one. -/
theorem C5_counterexample :
    Configured (worldAfter [.bringUP 1 (-2147483648) 1]) ∧
    candidates (worldAfter [.bringUP 1 (-2147483648) 1]) 0 = [9000] ∧
    (worldAfter [.bringUP 1 (-2147483648) 1]).server_status 9000 = (true, -2147483648) ∧
    (put (worldAfter [.bringUP 1 (-2147483648) 1]) ackAll 0 1).map
        (fun res => (res.log, capacity res.world 9000))
      = .ok ([(9000, .success)], 2147483647) ∧
    (2147483647 : Int) ≠ -2147483648 - 1 := by
  refine ⟨by decide!, by decide!, by decide!, by decide!, by decide⟩

/-- C5 amended (capacity accounting).  On a configured cluster `put` returns,
and for every node `n`: the online flag of `n` is unchanged; when `n` is a
candidate of the key that was online, had non-zero capacity and acknowledged
the write, and its capacity before is an `int` above `INT_MIN`, the remaining
capacity after the call is the capacity before minus one; in every other case
but that one (skipped as offline, skipped as full, attempted with a transport
failure, or not a candidate) it is the capacity before. -/
theorem C5_capacity_accounting_amended (w : World) (net : Int → SetOutcome)
    (key value : Int) (hc : Configured w) :
    ∃ res, put w net key value = .ok res ∧
      res.log = (candidates w key).map (fun p => (p, outcomeOf w net p)) ∧
      ∀ n,
        online res.world n = online w n ∧
        (n ∈ candidates w key ∧ online w n = true ∧ capacity w n ≠ 0 ∧ net n = .ack →
          INT_MIN < capacity w n → capacity w n ≤ INT_MAX →
          capacity res.world n = capacity w n - 1) ∧
        (¬ (n ∈ candidates w key ∧ online w n = true ∧ capacity w n ≠ 0 ∧ net n = .ack) →
          capacity res.world n = capacity w n) := by
  obtain ⟨hRL1, hRL⟩ := hc
  have hN : 0 < w.NUM_OF_SERVERS := by omega
  obtain ⟨res, hp, hlog, -, hst, -⟩ := put_exact w net key value hN hRL
  refine ⟨res, hp, hlog, ?_⟩
  intro n
  unfold capacity online
  rw [hst n]
  refine ⟨by split_ifs <;> rfl, ?_, ?_⟩
  · intro h hlo hhi
    rw [if_pos ⟨h.1, (outcomeOf_success_iff w net n).mpr h.2⟩]
    show wrapInt ((w.server_status n).2 - 1) = (w.server_status n).2 - 1
    unfold INT_MIN at hlo
    unfold INT_MAX at hhi
    unfold wrapInt
    omega
  · intro h
    rw [if_neg (fun hh => h ⟨hh.1, (outcomeOf_success_iff w net n).mp hh.2⟩)]

/-- C5 amended on the cluster of `main` right after `bringUP(5, 3, 2)`, for
`put(1, 2)` with a transport failure on port 9002: the capacity of 9001 drops
to 2, those of 9002 (failed attempt) and 9000 (no candidate) stay 3. -/
theorem C5_capacity_accounting_amended_witness :
    Configured (worldAfter [.bringUP 5 3 2]) ∧
    ∃ res, put (worldAfter [.bringUP 5 3 2])
        (fun p => if p = 9002 then .threw else .ack) 1 2 = .ok res ∧
      res.log = [(9001, .success), (9002, .failedTransport)] ∧
      capacity res.world 9001 = 2 ∧ capacity res.world 9002 = 3 ∧
      capacity res.world 9000 = 3 := by
  have hc : Configured (worldAfter [.bringUP 5 3 2]) := by decide!
  obtain ⟨res, h, hlog, hall⟩ := C5_capacity_accounting_amended (worldAfter [.bringUP 5 3 2])
    (fun p => if p = 9002 then .threw else .ack) 1 2 hc
  refine ⟨hc, res, h, ?_, ?_, ?_, ?_⟩
  · rw [hlog]
    decide!
  · rw [(hall 9001).2.1 (by decide!) (by decide!) (by decide!)]
    decide!
  · rw [(hall 9002).2.2 (by decide!)]
    decide!
  · rw [(hall 9000).2.2 (by decide!)]
    decide!

theorem attempted_eq_nil (log : List (Int × Outcome))
    (h : ∀ e ∈ log, e.2 = .skippedOffline ∨ e.2 = .skippedFull) : attempted log = [] := by
  unfold attempted
  rw [List.map_eq_nil_iff, List.filter_eq_nil_iff]
  intro e he
  rcases h e he with h | h <;> simp [h]

/-- C3 (no eligible replica).  On a configured cluster `put` returns, and it
takes the branch `RL == no_success` (could not put anywhere) exactly when every
candidate of the key is offline or has remaining capacity `0`; in that case
`p_put` is started on no port, and the status map and the stores are left as
they were. -/
theorem C3_no_eligible_replica (w : World) (net : Int → SetOutcome) (key value : Int)
    (hc : Configured w) :
    ∃ res, put w net key value = .ok res ∧
      (res.noEligible = true
        ↔ ∀ p ∈ candidates w key, online w p = false ∨ capacity w p = 0) ∧
      (res.noEligible = true →
        attempted res.log = [] ∧
        (∀ n, res.world.server_status n = w.server_status n) ∧
        (∀ q k, res.world.node q k = w.node q k)) := by
  obtain ⟨hRL1, hRL⟩ := hc
  have hN : 0 < w.NUM_OF_SERVERS := by omega
  obtain ⟨res, hp, hlog, hne, hst, hnode, -⟩ := put_exact w net key value hN hRL
  have hlen : ((candidates w key).length : Int) = w.RL := by
    rw [candidates_length]
    omega
  have hiff : res.noEligible = true
      ↔ ∀ p ∈ candidates w key, online w p = false ∨ capacity w p = 0 := by
    rw [hne, decide_eq_true_iff, ← hlen]
    constructor
    · intro h p hp
      have h2 := List.filter_length_eq_length.mp (by exact_mod_cast h.symm) p hp
      exact (outcomeOf_skipped_iff w net p).mp (by simpa using h2)
    · intro h
      have h2 : ((candidates w key).filter (fun p => decide (outcomeOf w net p = .skippedOffline
          ∨ outcomeOf w net p = .skippedFull))).length = (candidates w key).length := by
        apply List.filter_length_eq_length.mpr
        intro p hp
        simpa using (outcomeOf_skipped_iff w net p).mpr (h p hp)
      exact_mod_cast h2.symm
  refine ⟨res, hp, hiff, ?_⟩
  intro hno
  have hall := hiff.mp hno
  have hnot : ∀ n, ¬ (n ∈ candidates w key ∧ outcomeOf w net n = .success) := by
    intro n hn
    have hs := (outcomeOf_success_iff w net n).mp hn.2
    rcases hall n hn.1 with h | h
    · unfold online at h
      rw [h] at hs
      simp at hs
    · exact hs.2.1 h
  refine ⟨?_, ?_, ?_⟩
  · apply attempted_eq_nil
    intro e he
    rw [hlog] at he
    obtain ⟨p, hp1, rfl⟩ := List.mem_map.mp he
    exact (outcomeOf_skipped_iff w net p).mpr (hall p hp1)
  · intro n
    rw [hst n, if_neg (hnot n)]
  · intro q k
    rw [hnode q k, if_neg (fun h => hnot q h.1)]

/-- C3 in `main`: before its last call the cluster has gone through the puts
and the two `failNode` calls; `put(1111, 20)` finds its candidates 9001 offline
and 9002 at capacity `0`, reports that it could not put anywhere and starts no
write. -/
theorem C3_no_eligible_replica_witness :
    Configured (worldAfter mainCalls) ∧
    candidates (worldAfter mainCalls) 1111 = [9001, 9002] ∧
    (worldAfter mainCalls).server_status 9001 = (false, 1) ∧
    (worldAfter mainCalls).server_status 9002 = (true, 0) ∧
    ∃ res, put (worldAfter mainCalls) ackAll 1111 20 = .ok res ∧
      res.noEligible = true ∧ attempted res.log = [] ∧
      ∀ n, res.world.server_status n = (worldAfter mainCalls).server_status n := by
  have hc : Configured (worldAfter mainCalls) := by decide!
  obtain ⟨res, h, hiff, himp⟩ := C3_no_eligible_replica (worldAfter mainCalls) ackAll 1111 20 hc
  have hno : res.noEligible = true := hiff.mpr (by decide!)
  exact ⟨hc, by decide!, by decide!, by decide!, res, h, hno, (himp hno).1, (himp hno).2.1⟩

/-- C6, as stated, fails.  From `Control()` the call `bringUP(-1, 0, -1)` has
capacity `0 ≥ 0`, passes the check `N < reliabilityLevel` and installs the node
count `-1`, the very value that marks a cluster not brought up; the repeated
call `bringUP(2, -5, 1)` therefore is no no-op and writes the capacity `-5` for
the nodes 9000 and 9001. -/
theorem C6_counterexample :
    (0 : Int) ≤ 0 ∧
    (run Control [.bringUP (-1) 0 (-1), .bringUP 2 (-5) 1]).map
        (fun r => (r.1.NUM_OF_SERVERS, capacity r.1 9000, capacity r.1 9001))
      = .ok (2, -5, -5) ∧
    ¬ ((0 : Int) ≤ -5) := by
  refine ⟨by decide, by decide!, by decide⟩

/-- C6 amended (capacity never negative).  Start from `Control()` and call
`bringUP(N, cap0, RL)`, followed by any sequence of `put`, `get`, `failNode` and
further `bringUP` calls, with any transport outcome on every attempt.  When `N`
is not `-1` and `cap0` is an `int` with `cap0 ≥ 0`, every node of the state
reached has a remaining capacity `≥ 0`: the first call installs the node count
and no later `bringUP` writes an entry.  In general, and so for `N = -1`, the
same holds provided every `bringUP` call of the history that writes node
entries (made while the node count is still `-1`, with `RL ≤ N` and `N ≥ 1`)
is given an `int` capacity `≥ 0`. -/
theorem C6_capacity_never_negative_amended (N cap0 RL : Int) (cs : List Call)
    (r : World × List Event)
    (hok : (N ≠ -1 ∧ 0 ≤ cap0 ∧ cap0 ≤ INT_MAX)
      ∨ installsOK Control (.bringUP N cap0 RL :: cs) = true)
    (h : run Control (.bringUP N cap0 RL :: cs) = .ok r) :
    ∀ n, 0 ≤ capacity r.1 n := by
  have hinv : ∀ n, 0 ≤ (Control.server_status n).2 ∧ (Control.server_status n).2 ≤ INT_MAX :=
    fun _ => ⟨le_refl _, show (0 : Int) ≤ INT_MAX by decide⟩
  have hall : installsOK Control (.bringUP N cap0 RL :: cs) = true := by
    rcases hok with ⟨hN, hlo, hhi⟩ | hok
    · obtain ⟨r1, r2, h1, -, -⟩ := run_cons Control _ cs r h
      have hfirst : (Call.bringUP N cap0 RL).installsOK Control = true := by
        simp only [Call.installsOK, decide_eq_true_eq]
        exact fun _ => ⟨hlo, hhi⟩
      simp only [installsOK, hfirst, h1, Bool.true_and]
      apply installsOK_of_installed
      simp only [step] at h1
      rcases bringUP_cases Control N cap0 RL with ⟨-, e⟩ | ⟨-, hne, -⟩ | ⟨-, -, w1, e, e1, -⟩
      · rw [e] at h1
        simp at h1
      · exact absurd rfl hne
      · rw [e] at h1
        injection h1 with h1
        subst h1
        rw [e1]
        exact hN
    · exact hok
  exact fun n => (run_capacity _ Control r h hall hinv n).1

/-- C6 amended on the calls of `main`, with a transport failure on port 9004 in
one `put` and a repeated `bringUP` asking for a negative capacity. -/
theorem C6_capacity_never_negative_amended_witness :
    ∃ r, run Control [.bringUP 5 3 2, .put 1 2 ackAll, .put 111 2 ackAll,
        .put 103 145 (fun p => if p = 9004 then .threw else .ack), .bringUP 7 (-4) 1,
        .put 32 4 ackAll, .failNode 9001, .put 11 2 ackAll] = .ok r ∧
      ∀ n, 0 ≤ capacity r.1 n := by
  cases hrun : run Control [.bringUP 5 3 2, .put 1 2 ackAll, .put 111 2 ackAll,
        .put 103 145 (fun p => if p = 9004 then .threw else .ack), .bringUP 7 (-4) 1,
        .put 32 4 ackAll, .failNode 9001, .put 11 2 ackAll] with
  | error e =>
    have hb : (run Control [.bringUP 5 3 2, .put 1 2 ackAll, .put 111 2 ackAll,
        .put 103 145 (fun p => if p = 9004 then .threw else .ack), .bringUP 7 (-4) 1,
        .put 32 4 ackAll, .failNode 9001, .put 11 2 ackAll]).toBool = true := by decide!
    rw [hrun] at hb
    simp [Except.toBool] at hb
  | ok r =>
    exact ⟨r, rfl, C6_capacity_never_negative_amended 5 3 2 _ r
      (Or.inl ⟨by decide, by decide, by decide⟩) hrun⟩

/-- C8 (`failNode` frame and effect).  For every world and port `p`:
`failNode(p)` clears the online flag of `p`, keeps the remaining capacity of
`p`, keeps the status of every other port, the configuration and the stores;
and after any further sequence of `put`, `get` and `failNode` calls (with any
network behaviour) `p` is still offline, no `put` of the sequence has started a
write on `p` and no `get` of the sequence has queried `p`. -/
theorem C8_failNode_frame_and_effect (w : World) (p : Int) (cs : List Call)
    (hcs : ∀ c ∈ cs, c.isBringUP = false) :
    online (failNode w p) p = false ∧
    capacity (failNode w p) p = capacity w p ∧
    (∀ q, q ≠ p → (failNode w p).server_status q = w.server_status q) ∧
    (failNode w p).NUM_OF_SERVERS = w.NUM_OF_SERVERS ∧
    (failNode w p).RL = w.RL ∧
    (failNode w p).node = w.node ∧
    ∀ r, run (failNode w p) cs = .ok r →
      online r.1 p = false ∧ Event.write p ∉ r.2 ∧ Event.read p ∉ r.2 := by
  have hoff : ((failNode w p).server_status p).1 = false := by simp [failNode, setStatus]
  refine ⟨hoff, by simp [capacity, failNode, setStatus], ?_, rfl, rfl, rfl, ?_⟩
  · intro q hq
    simp [failNode, setStatus, hq]
  · intro r hr
    obtain ⟨-, -, hflag⟩ := run_config cs (failNode w p) r hr (Or.inr hcs)
    refine ⟨?_, run_offline cs (failNode w p) r hr (Or.inr hcs) p hoff⟩
    unfold online
    rw [hflag p, hoff]
    rfl

/-- C8 in `main`: after `failNode(9001)` the calls `put(11,2)`, `put(64,2)` and
a `get(111)` answered by stores that hold nothing reach neither 9001 for a
write nor for a read; the `put`s write on 9004 and 9000 and the `get` reads
9002. -/
theorem C8_failNode_frame_and_effect_witness :
    ∃ r, run (failNode (worldAfter [.bringUP 5 3 2, .put 1 2 ackAll, .put 111 2 ackAll,
          .put 103 145 ackAll, .put 32 4 ackAll]) 9001)
        [.put 11 2 ackAll, .put 64 2 ackAll, .get 111 (fun _ => .reply .nil)] = .ok r ∧
      r.2 = [.write 9004, .write 9000, .read 9002] ∧
      online r.1 9001 = false ∧ Event.write 9001 ∉ r.2 ∧ Event.read 9001 ∉ r.2 := by
  cases hrun : run (failNode (worldAfter [.bringUP 5 3 2, .put 1 2 ackAll, .put 111 2 ackAll,
          .put 103 145 ackAll, .put 32 4 ackAll]) 9001)
        [.put 11 2 ackAll, .put 64 2 ackAll, .get 111 (fun _ => .reply .nil)] with
  | error e =>
    have hb : (run (failNode (worldAfter [.bringUP 5 3 2, .put 1 2 ackAll, .put 111 2 ackAll,
          .put 103 145 ackAll, .put 32 4 ackAll]) 9001)
        [.put 11 2 ackAll, .put 64 2 ackAll, .get 111 (fun _ => .reply .nil)]).toBool
          = true := by decide!
    rw [hrun] at hb
    simp [Except.toBool] at hb
  | ok r =>
    have hev : (run (failNode (worldAfter [.bringUP 5 3 2, .put 1 2 ackAll, .put 111 2 ackAll,
          .put 103 145 ackAll, .put 32 4 ackAll]) 9001)
        [.put 11 2 ackAll, .put 64 2 ackAll, .get 111 (fun _ => .reply .nil)]).map
          (fun x => x.2) = .ok [.write 9004, .write 9000, .read 9002] := by decide!
    rw [hrun] at hev
    injection hev with hev
    exact ⟨r, rfl, hev, (C8_failNode_frame_and_effect _ 9001 _ (by decide)).2.2.2.2.2.2 r hrun⟩

/-- C10, as stated, fails: from `Control()` the call `bringUP(3, 1, 0)` passes
the check `N < reliabilityLevel` and installs `N = 3`, `RL = 0`, a
configuration without `1 ≤ RL` in which no key has a candidate; and
`bringUP(0, 1, 0)` installs `N = 0`. -/
theorem C10_counterexample :
    (bringUP Control 3 1 0).map (fun w => (w.NUM_OF_SERVERS, w.RL, candidates w 7))
      = .ok (3, 0, []) ∧
    (bringUP Control 0 1 0).map (fun w => (w.NUM_OF_SERVERS, w.RL)) = .ok (0, 0) ∧
    ¬ ((1 : Int) ≤ 0) ∧ ¬ ((0 : Int) > 0) := by
  refine ⟨by decide!, by decide!, by decide, by decide⟩

/-- C10 amended.  `bringUP(N, capacity, RL)` ends the process exactly when
`N < RL`.  When it returns it has `RL ≤ N`; called on `Control()` (node count
still the sentinel `-1`) it installs exactly `N` and `RL`, so the installed
configuration has `RL ≤ N`, and when the caller passed `RL ≥ 1` it has `N > 0`
and `1 ≤ RL ≤ N`: then `getNodeIndex` returns an index in `[0, N)` for every
key and `put`/`get` scan `RL ≥ 1` candidates.  Called on a cluster that was
already brought up it changes nothing. -/
theorem C10_configuration_validity_amended (w : World) (N cap0 RL : Int) :
    (bringUP w N cap0 RL = .error .exitBringUP ↔ N < RL) ∧
    ∀ w1, bringUP w N cap0 RL = .ok w1 →
      RL ≤ N ∧
      (w.NUM_OF_SERVERS ≠ -1 → w1 = w) ∧
      (w.NUM_OF_SERVERS = -1 →
        w1.NUM_OF_SERVERS = N ∧ w1.RL = RL ∧ w1.RL ≤ w1.NUM_OF_SERVERS ∧
        (1 ≤ RL →
          0 < w1.NUM_OF_SERVERS ∧ Configured w1 ∧
          ∀ key, (∃ i, getNodeIndex w1 key = .ok i ∧ 0 ≤ i ∧ i < w1.NUM_OF_SERVERS) ∧
            ((candidates w1 key).length : Int) = RL ∧ candidates w1 key ≠ [])) := by
  rcases bringUP_cases w N cap0 RL with ⟨hlt, e⟩ | ⟨hle, hne, e⟩ | ⟨hle, heq, w2, e, e1, e2, -⟩
  · rw [e]
    exact ⟨⟨fun _ => hlt, fun _ => rfl⟩, fun w1 h => by simp at h⟩
  · rw [e]
    refine ⟨⟨fun h => by simp at h, fun h => by omega⟩, ?_⟩
    intro w1 h
    injection h with h
    exact ⟨hle, fun _ => h.symm, fun h1 => absurd h1 hne⟩
  · rw [e]
    refine ⟨⟨fun h => by simp at h, fun h => by omega⟩, ?_⟩
    intro w1 h
    injection h with h
    subst h
    refine ⟨hle, fun h1 => absurd heq h1, fun _ => ⟨e1, e2, by omega, ?_⟩⟩
    intro hRL
    have hN : 0 < w2.NUM_OF_SERVERS := by omega
    refine ⟨hN, ⟨by omega, by omega⟩, ?_⟩
    intro key
    have hlen : ((candidates w2 key).length : Int) = RL := by
      rw [candidates_length, e2]
      omega
    refine ⟨⟨_, getNodeIndex_ok w2 key hN, Int.emod_nonneg _ (by omega),
      Int.emod_lt_of_pos _ hN⟩, hlen, ?_⟩
    intro hnil
    rw [hnil] at hlen
    simp at hlen
    omega

/-- C10 amended on the call of `main`: `bringUP(5, 3, 2)` on `Control()`
installs a configuration with `1 ≤ RL ≤ N`. -/
theorem C10_configuration_validity_amended_witness :
    ∃ w1, bringUP Control 5 3 2 = .ok w1 ∧
      w1.NUM_OF_SERVERS = 5 ∧ w1.RL = 2 ∧ Configured w1 := by
  cases h : bringUP Control 5 3 2 with
  | error e =>
    have hb : (bringUP Control 5 3 2).toBool = true := by decide!
    rw [h] at hb
    simp [Except.toBool] at hb
  | ok w1 =>
    have h3 := ((C10_configuration_validity_amended Control 5 3 2).2 w1 h).2.2 rfl
    exact ⟨w1, rfl, h3.1, h3.2.1, (h3.2.2.2 (by decide)).2.1⟩

/-- C7, as stated, fails on a string reply whose text is no integer.  On the
cluster of `main` after `bringUP(5, 3, 2)` and `put(1, 2)`, both candidates 9001
and 9002 of key 1 are online.  When 9001 answers with such a string and 9002
with the text of 2, `get(1)` hands the reply of 9001 to `stoi`, whose exception
leaves `get`: the value 2 of the first candidate with a well-formed value is
not returned and 9002 is never asked.  When both answer with such a string the
same happens, and not-found is not reported. -/
theorem C7_counterexample :
    Configured (worldAfter [.bringUP 5 3 2, .put 1 2 ackAll]) ∧
    candidates (worldAfter [.bringUP 5 3 2, .put 1 2 ackAll]) 1 = [9001, 9002] ∧
    online (worldAfter [.bringUP 5 3 2, .put 1 2 ackAll]) 9001 = true ∧
    online (worldAfter [.bringUP 5 3 2, .put 1 2 ackAll]) 9002 = true ∧
    get (worldAfter [.bringUP 5 3 2, .put 1 2 ackAll])
        (fun p => if p = 9001 then .reply (.str none) else .reply (.str (some 2))) 1
      = .ok (.threw, [9001]) ∧
    get (worldAfter [.bringUP 5 3 2, .put 1 2 ackAll]) (fun _ => .reply (.str none)) 1
      = .ok (.threw, [9001]) ∧
    GetOutcome.threw ≠ GetOutcome.notFound ∧
    GetOutcome.threw.ret = none := by
  refine ⟨by decide!, by decide!, by decide!, by decide!, by decide!, by decide!,
    by decide, rfl⟩

/-- C7 amended (read scan).  On a configured cluster `get` returns; it calls
`p_get` only on candidates that are online; it ends without a value, handing
back `INT_MIN`, exactly when every candidate is offline or answers with a reply
that is not a string (not found, or an error reply); and when `p` is the first
candidate that is online and answers with a string reply whose text reads as
the integer `v`, every candidate before it being offline or answering with a
reply that is not a string, `get` retrieves `v` and the ports it has queried
are the online candidates before `p` followed by `p`, none after it. -/
theorem C7_read_scan_amended (w : World) (ask : Int → Fetched) (key : Int)
    (hc : Configured w) :
    ∃ res, get w ask key = .ok res ∧
      (∀ q ∈ res.2, q ∈ candidates w key ∧ online w q = true) ∧
      (res.1 = .notFound ↔ ∀ p ∈ candidates w key, Misses w ask p) ∧
      (res.1 = .notFound → res.1.ret = some INT_MIN) ∧
      ∀ pre p post v, candidates w key = pre ++ p :: post →
        (∀ x ∈ pre, Misses w ask x) → online w p = true → ask p = .reply (.str (some v)) →
        res = (.retrieved v, pre.filter (fun x => (w.server_status x).1) ++ [p]) ∧
        res.1.ret = some v := by
  have hN : 0 < w.NUM_OF_SERVERS := by
    obtain ⟨h1, h2⟩ := hc
    omega
  refine ⟨_, get_eq w ask key hN, getPorts_queried w ask _, getPorts_notFound_iff w ask _,
    fun h => by rw [h]; rfl, ?_⟩
  intro pre p post v hsplit hpre hon hask
  have hres : getPorts w ask (candidates w key)
      = (.retrieved v, pre.filter (fun x => (w.server_status x).1) ++ [p]) := by
    rw [hsplit, getPorts_after_misses w ask pre (p :: post) hpre]
    have hp : getPorts w ask (p :: post) = (.retrieved v, [p]) := by
      unfold getPorts
      rw [if_neg (by unfold online at hon; simp [hon]), hask]
    rw [hp]
  rw [hres]
  exact ⟨rfl, rfl⟩

/-- C7 amended in `main`: on the state the reads of `main` run on, `get(111)`
skips the offline 9001 and retrieves 2 from 9002, and `get(139)` queries 9004
and 9000, finds nothing and hands back `INT_MIN`. -/
theorem C7_read_scan_amended_witness :
    Configured (worldAfter mainWrites) ∧
    candidates (worldAfter mainWrites) 111 = [9001, 9002] ∧
    online (worldAfter mainWrites) 9001 = false ∧
    get (worldAfter mainWrites) (served (worldAfter mainWrites) 111) 111
      = .ok (.retrieved 2, [9002]) ∧
    get (worldAfter mainWrites) (served (worldAfter mainWrites) 139) 139
      = .ok (.notFound, [9004, 9000]) := by
  have hc : Configured (worldAfter mainWrites) := by decide!
  obtain ⟨res, hget, -, -, -, hfirst⟩ :=
    C7_read_scan_amended (worldAfter mainWrites) (served (worldAfter mainWrites) 111) 111 hc
  have hmiss : ∀ x ∈ [(9001 : Int)],
      Misses (worldAfter mainWrites) (served (worldAfter mainWrites) 111) x := by
    intro x hx
    have hx1 : x = 9001 := by simpa using hx
    subst hx1
    exact Or.inl (by decide!)
  have hres := (hfirst [9001] 9002 [] 2 (by decide!) hmiss (by decide!) (by decide!)).1
  have hfilter : ([(9001 : Int)]).filter (fun x => ((worldAfter mainWrites).server_status x).1)
      = [] := by decide!
  rw [hres, hfilter] at hget
  exact ⟨hc, by decide!, by decide!, hget, by decide!⟩

/-- C9 at the failing input.  On the cluster of `main` after `bringUP(5, 3, 2)`
and `put(1, 2)`, both candidates 9001 and 9002 of key 1 are online and hold 2.
A transport failure on 9001 makes `get(1)` end with the exception after the
single query of 9001: 9002 is never asked and no `int` is handed back.  With
the same failure `put(1, 7)` catches the exception and still writes on 9002. -/
theorem C9_get_transport_failure_escapes :
    Configured (worldAfter [.bringUP 5 3 2, .put 1 2 ackAll]) ∧
    candidates (worldAfter [.bringUP 5 3 2, .put 1 2 ackAll]) 1 = [9001, 9002] ∧
    online (worldAfter [.bringUP 5 3 2, .put 1 2 ackAll]) 9001 = true ∧
    online (worldAfter [.bringUP 5 3 2, .put 1 2 ackAll]) 9002 = true ∧
    (worldAfter [.bringUP 5 3 2, .put 1 2 ackAll]).node 9002 1 = some 2 ∧
    get (worldAfter [.bringUP 5 3 2, .put 1 2 ackAll])
        (fun p => if p = 9001 then .threw
          else served (worldAfter [.bringUP 5 3 2, .put 1 2 ackAll]) 1 p) 1
      = .ok (.threw, [9001]) ∧
    GetOutcome.threw.ret = none ∧
    (put (worldAfter [.bringUP 5 3 2, .put 1 2 ackAll])
        (fun p => if p = 9001 then .threw else .ack) 1 7).map (fun r => r.log)
      = .ok [(9001, .failedTransport), (9002, .success)] := by
  refine ⟨by decide!, by decide!, by decide!, by decide!, by decide!, by decide!, rfl,
    by decide!⟩

/-- C1, as stated, fails.  Start from `Control()`, `bringUP(3, 2, 2)`,
`put(0, 10)`, `put(2, 5)`, every write acknowledged.  Key 0 has the candidates
9000 and 9001; 9000 is online with capacity `0` and holds 10 for key 0, 9001 is
online with capacity `1`.  `put(0, 20)` skips 9000 as full and writes 20 on
9001, which stays online; the `get(0)` that follows reads 9000 first and
retrieves the old value 10, not 20. -/
theorem C1_counterexample :
    Configured (worldAfter [.bringUP 3 2 2, .put 0 10 ackAll, .put 2 5 ackAll]) ∧
    candidates (worldAfter [.bringUP 3 2 2, .put 0 10 ackAll, .put 2 5 ackAll]) 0
      = [9000, 9001] ∧
    (worldAfter [.bringUP 3 2 2, .put 0 10 ackAll, .put 2 5 ackAll]).server_status 9000
      = (true, 0) ∧
    (worldAfter [.bringUP 3 2 2, .put 0 10 ackAll, .put 2 5 ackAll]).server_status 9001
      = (true, 1) ∧
    (put (worldAfter [.bringUP 3 2 2, .put 0 10 ackAll, .put 2 5 ackAll]) ackAll 0 20).map
        (fun res => (res.log, res.noEligible, online res.world 9001, res.world.node 9001 0))
      = .ok ([(9000, .skippedFull), (9001, .success)], false, true, some 20) ∧
    (put (worldAfter [.bringUP 3 2 2, .put 0 10 ackAll, .put 2 5 ackAll]) ackAll 0 20).bind
        (fun res => get res.world (served res.world 0) 0)
      = .ok (.retrieved 10, [9000]) ∧
    (10 : Int) ≠ 20 := by
  refine ⟨by decide!, by decide!, by decide!, by decide!, by decide!, by decide!, by decide⟩

/-- C1 amended (round trip).  On a configured cluster, let `put(key, value)`
run with every attempt on a candidate acknowledged, and let any sequence of
calls without a `put` to `key` follow.  Let `p` be a candidate of `key` that
was online with non-zero capacity at the `put` and is online at the `get`
(the first such one gives the weakest condition).  If every candidate scanned
before `p` that was online but at capacity `0` at the `put` (so skipped as
full) and is online at the `get` held no value for `key` or already held
`value`, then `get(key)`, answered by the stores, retrieves `value`.  Nothing
is asked of the candidates scanned after `p`. -/
theorem C1_round_trip_amended (w : World) (net : Int → SetOutcome) (key value : Int)
    (cs : List Call) (pre : List Int) (p : Int) (post : List Int) (hc : Configured w)
    (hack : ∀ q ∈ candidates w key, net q = .ack)
    (hno : ∀ c ∈ cs, c.putsKey key = false)
    (hsplit : candidates w key = pre ++ p :: post)
    (hp : online w p = true ∧ capacity w p ≠ 0) :
    ∃ res, put w net key value = .ok res ∧
      ∀ r, run res.world cs = .ok r → online r.1 p = true →
        (∀ q ∈ pre, online w q = true → capacity w q = 0 → online r.1 q = true →
          w.node q key = none ∨ w.node q key = some value) →
        ∃ queried, get r.1 (served r.1 key) key = .ok (.retrieved value, queried) := by
  obtain ⟨hRL1, hRL⟩ := hc
  have hN : 0 < w.NUM_OF_SERVERS := by omega
  obtain ⟨res, hput, -, -, hst, hnode, hN1, hRL2⟩ := put_exact w net key value hN hRL
  refine ⟨res, hput, ?_⟩
  intro r hr hpon hstale
  obtain ⟨rN, rRL, rflag⟩ := run_config cs res.world r hr (Or.inl (by omega))
  have rnode := run_node key cs res.world r hr hno
  have hcand : candidates r.1 key = candidates w key :=
    candidates_congr w r.1 key (by rw [rN, hN1]) (by rw [rRL, hRL2])
  have hflag : ∀ x, (r.1.server_status x).1 = true → (w.server_status x).1 = true := by
    intro x hx
    rw [rflag x, hst x] at hx
    have hx1 := (Bool.and_eq_true _ _).mp hx
    have hx2 := hx1.1
    split_ifs at hx2 <;> exact hx2
  have hval : ∀ x ∈ candidates w key, (w.server_status x).1 = true →
      (w.server_status x).2 ≠ 0 → r.1.node x key = some value := by
    intro x hx h1 h2
    rw [rnode x, hnode x key,
      if_pos ⟨⟨hx, (outcomeOf_success_iff w net x).mpr ⟨h1, h2, hack x hx⟩⟩, rfl⟩]
  have hpc : p ∈ candidates w key := by
    rw [hsplit]
    simp
  have hres : (getPorts r.1 (served r.1 key) (pre ++ p :: post)).1 = .retrieved value := by
    apply getPorts_served_split r.1 key value p post hpon (hval p hpc hp.1 hp.2)
    intro x hx hon
    have hxc : x ∈ candidates w key := by
      rw [hsplit]
      exact List.mem_append_left _ hx
    have h1 := hflag x hon
    by_cases h2 : (w.server_status x).2 = 0
    · have hsame : r.1.node x key = w.node x key := by
        rw [rnode x, hnode x key, if_neg]
        intro h
        exact ((outcomeOf_success_iff w net x).mp h.1.2).2.1 h2
      rw [hsame]
      exact hstale x hx h1 h2 hon
    · exact Or.inr (hval x hxc h1 h2)
  refine ⟨(getPorts r.1 (served r.1 key) (pre ++ p :: post)).2, ?_⟩
  rw [get_eq r.1 (served r.1 key) key (by omega), hcand, hsplit, ← hres]

/-- C1 amended, where a full candidate holding an older value comes after the
written one.  After `bringUP(3, 2, 2)`, `put(0, 10)`, `put(1, 5)`, key 0 has
the candidates 9000 (capacity 1) and 9001 (capacity 0, holding 10);
`put(0, 20)` writes on 9000 and skips 9001, and `get(0)` retrieves 20. -/
theorem C1_round_trip_amended_witness :
    Configured (worldAfter [.bringUP 3 2 2, .put 0 10 ackAll, .put 1 5 ackAll]) ∧
    candidates (worldAfter [.bringUP 3 2 2, .put 0 10 ackAll, .put 1 5 ackAll]) 0
      = [9000, 9001] ∧
    (worldAfter [.bringUP 3 2 2, .put 0 10 ackAll, .put 1 5 ackAll]).server_status 9000
      = (true, 1) ∧
    (worldAfter [.bringUP 3 2 2, .put 0 10 ackAll, .put 1 5 ackAll]).server_status 9001
      = (true, 0) ∧
    (worldAfter [.bringUP 3 2 2, .put 0 10 ackAll, .put 1 5 ackAll]).node 9001 0
      = some 10 ∧
    ∃ res, put (worldAfter [.bringUP 3 2 2, .put 0 10 ackAll, .put 1 5 ackAll])
        ackAll 0 20 = .ok res ∧
      ∃ queried, get res.world (served res.world 0) 0 = .ok (.retrieved 20, queried) := by
  have hc : Configured (worldAfter [.bringUP 3 2 2, .put 0 10 ackAll, .put 1 5 ackAll]) := by
    decide!
  obtain ⟨res, hput, hrt⟩ := C1_round_trip_amended
    (worldAfter [.bringUP 3 2 2, .put 0 10 ackAll, .put 1 5 ackAll]) ackAll 0 20
    [] [] 9000 [9001] hc (fun _ _ => rfl) (by decide) (by decide!)
    ⟨by decide!, by decide!⟩
  have hon : online res.world 9000 = true := by
    unfold online
    rw [(put_frame _ ackAll 0 20 res hput).1 9000]
    decide!
  exact ⟨hc, by decide!, by decide!, by decide!, by decide!, res, hput,
    hrt (res.world, []) rfl hon (by simp)⟩

/-- C2 (failover read).  On a configured cluster, let `put(key, value)` find
every candidate of `key` online with non-zero capacity and be acknowledged by
all of them, and let any sequence of calls without a `put` to `key` follow,
whose `failNode` calls name every candidate before `p` in scan order but not
`p`.  Then `put` has logged a success on every candidate, and `get(key)`,
answered by the stores, retrieves `value` with a single query, on `p`, the
first surviving candidate. -/
theorem C2_failover_read (w : World) (net : Int → SetOutcome) (key value : Int)
    (cs : List Call) (pre : List Int) (p : Int) (post : List Int) (hc : Configured w)
    (hall : ∀ q ∈ candidates w key, online w q = true ∧ capacity w q ≠ 0 ∧ net q = .ack)
    (hno : ∀ c ∈ cs, c.putsKey key = false)
    (hsplit : candidates w key = pre ++ p :: post)
    (hpre : ∀ x ∈ pre, x ∈ failedPorts cs) (hp : p ∉ failedPorts cs) :
    ∃ res, put w net key value = .ok res ∧
      (∀ e ∈ res.log, e.1 ∈ candidates w key ∧ e.2 = .success) ∧
      res.noEligible = false ∧
      ∀ r, run res.world cs = .ok r →
        get r.1 (served r.1 key) key = .ok (.retrieved value, [p]) := by
  obtain ⟨hRL1, hRL⟩ := hc
  have hN : 0 < w.NUM_OF_SERVERS := by omega
  obtain ⟨res, hput, hlog, hne, hst, hnode, hN1, hRL2⟩ := put_exact w net key value hN hRL
  have hsucc : ∀ q ∈ candidates w key, outcomeOf w net q = .success :=
    fun q hq => (outcomeOf_success_iff w net q).mpr (hall q hq)
  have hpc : p ∈ candidates w key := by
    rw [hsplit]
    simp
  refine ⟨res, hput, ?_, ?_, ?_⟩
  · intro e he
    rw [hlog] at he
    obtain ⟨q, hq, rfl⟩ := List.mem_map.mp he
    exact ⟨hq, hsucc q hq⟩
  · rw [hne, decide_eq_false_iff_not]
    intro hEq
    have hlen : ((candidates w key).length : Int) = w.RL := by
      rw [candidates_length]
      omega
    have h2 := List.filter_length_eq_length.mp
      (by exact_mod_cast (hEq.symm.trans hlen.symm)) p hpc
    have h3 := (outcomeOf_skipped_iff w net p).mp (by simpa using h2)
    have h4 := hall p hpc
    unfold online capacity at h4
    rcases h3 with h3 | h3
    · rw [h3] at h4
      simp at h4
    · exact h4.2.1 h3
  · intro r hr
    obtain ⟨rN, rRL, rflag⟩ := run_config cs res.world r hr (Or.inl (by omega))
    have rnode := run_node key cs res.world r hr hno
    have hcand : candidates r.1 key = candidates w key :=
      candidates_congr w r.1 key (by rw [rN, hN1]) (by rw [rRL, hRL2])
    have hoff : ∀ x ∈ pre, (r.1.server_status x).1 = false := by
      intro x hx
      rw [rflag x]
      simp [hpre x hx]
    have hon : (r.1.server_status p).1 = true := by
      have h4 := (hall p hpc).1
      unfold online at h4
      rw [rflag p, hst p, if_pos ⟨hpc, hsucc p hpc⟩]
      simp [h4, hp]
    have hv : r.1.node p key = some value := by
      rw [rnode p, hnode p key, if_pos ⟨⟨hpc, hsucc p hpc⟩, rfl⟩]
    rw [get_eq r.1 (served r.1 key) key (by omega), hcand, hsplit,
      getPorts_after_misses r.1 _ pre (p :: post) (fun x hx => Or.inl (hoff x hx))]
    have hfil : pre.filter (fun x => (r.1.server_status x).1) = [] := by
      rw [List.filter_eq_nil_iff]
      intro x hx
      simp [hoff x hx]
    have hps : served r.1 key p = .reply (.str (some value)) := by simp [served, hv]
    have hg : getPorts r.1 (served r.1 key) (p :: post) = (.retrieved value, [p]) := by
      unfold getPorts
      rw [if_neg (by simp [hon]), hps]
    rw [hfil, hg]
    rfl

/-- C2 in `main`: `bringUP(5, 3, 2)`, `put(103, 145)`, `failNode(9003)`, then
`get(103)` retrieves 145 from 9004. -/
theorem C2_failover_read_witness :
    Configured (worldAfter [.bringUP 5 3 2]) ∧
    candidates (worldAfter [.bringUP 5 3 2]) 103 = [9003, 9004] ∧
    (∃ res, put (worldAfter [.bringUP 5 3 2]) ackAll 103 145 = .ok res ∧
      get (failNode res.world 9003) (served (failNode res.world 9003) 103) 103
        = .ok (.retrieved 145, [9004])) ∧
    (run Control [.bringUP 5 3 2, .put 103 145 ackAll, .failNode 9003]).bind
        (fun r => get r.1 (served r.1 103) 103)
      = .ok (.retrieved 145, [9004]) := by
  have hc : Configured (worldAfter [.bringUP 5 3 2]) := by decide!
  have hcand : candidates (worldAfter [.bringUP 5 3 2]) 103 = [9003, 9004] := by decide!
  obtain ⟨res, hput, -, -, hget⟩ := C2_failover_read (worldAfter [.bringUP 5 3 2]) ackAll
    103 145 [.failNode 9003] [9003] 9004 [] hc
    (by
      intro q hq
      rw [hcand] at hq
      have hq2 : q = 9003 ∨ q = 9004 := by simpa using hq
      rcases hq2 with h | h
      · subst h
        exact ⟨by decide!, by decide!, rfl⟩
      · subst h
        exact ⟨by decide!, by decide!, rfl⟩)
    (by decide) hcand (by decide) (by decide)
  exact ⟨hc, hcand, ⟨res, hput, hget (failNode res.world 9003, []) rfl⟩, by decide!⟩

end Redis
